import Mathlib

/-!
Verification of the `jwts`/`jwtx` JWT codec (herebythere/jwts, v0.1, Go).

A shallow embedding of the two Go packages `jwts` (src/v0.1/golang/jwts.go)
and `jwtx` (src/v0.1/golang/jwtx.go), together with proofs about the claims
of the specification.

Modelling conventions:
* Go strings and byte slices are both byte sequences; both are modelled as
  `List Nat` (each entry a byte value).  String literals are converted with
  `strBytes` (ASCII).
* Go pointers (`*T`) are modelled as `Option T`; dereferencing a `nil`
  pointer is a runtime panic, modelled by the `GoStep.crashed` outcome.
  Functions that cannot panic return plain values.
* Go `int64` arithmetic wraps around (two's complement); additions and
  subtractions on times are modelled by `i64add`/`i64sub` over `Int`.
* The wall clock (`time.Now().Unix()`) is passed in explicitly as a `now`
  argument; the `math/rand` source of `generateRandomByteArray` is passed
  in as a function `Nat → Nat` giving the byte stream.
* The Go standard library pieces the code calls (`encoding/base64`
  RawStdEncoding / StdEncoding, `encoding/json` marshalling of the three
  concrete struct types and of `[]byte`, `strings.Split`, `crypto/sha256`,
  `crypto/hmac`) are implemented below as executable functions, faithful to
  their documented behaviour on the values that occur here (JSON escaping
  is the byte-level escaping Go's encoder performs, including the HTML
  escapes `<`, `>`, `&`; the JSON reader accepts the
  flat object / string / integer / string-array / null fragment these
  tokens use).
-/

/-- Bytes are `Nat` values; a Go string or `[]byte` is a `List Nat`. -/
abbrev Bytes := List Nat

/-- The bytes of an ASCII string literal. -/
def strBytes (s : String) : Bytes := s.data.map Char.toNat

/-- Two's-complement wrap of an integer into the `int64` range. -/
def wrap64 (n : Int) : Int := (n + 2 ^ 63) % 2 ^ 64 - 2 ^ 63

/-- Go `int64` addition (wraps on overflow). -/
def i64add (a b : Int) : Int := wrap64 (a + b)

/-- Go `int64` subtraction (wraps on overflow). -/
def i64sub (a b : Int) : Int := wrap64 (a - b)

/-- `n` is representable as an `int64`. -/
def Int64Range (n : Int) : Prop := -(2 ^ 63) ≤ n ∧ n < 2 ^ 63

instance (n : Int) : Decidable (Int64Range n) := by
  unfold Int64Range; infer_instance

theorem wrap64_eq_of_range {n : Int} (h : Int64Range n) : wrap64 n = n := by
  obtain ⟨h1, h2⟩ := h
  unfold wrap64
  have hmod : (n + 2 ^ 63) % 2 ^ 64 = n + 2 ^ 63 :=
    Int.emod_eq_of_lt (by omega) (by omega)
  omega

theorem wrap64_range (n : Int) : Int64Range (wrap64 n) := by
  unfold wrap64 Int64Range
  constructor
  · have := Int.emod_nonneg (n + 2 ^ 63) (b := 2 ^ 64) (by norm_num)
    omega
  · have := Int.emod_lt_of_pos (n + 2 ^ 63) (b := 2 ^ 64) (by norm_num)
    omega

/-! ## Base64 (Go `encoding/base64`)

`RawStdEncoding` is the standard alphabet without padding, used for the
three token segments.  `StdEncoding` (with `=` padding) is what
`encoding/json` uses when it marshals a `[]byte`. -/

/-- The standard base64 alphabet, as a function from a 6-bit value to the
byte of the encoding character. -/
def b64char (v : Nat) : Nat :=
  if v < 26 then 65 + v
  else if v < 52 then 71 + v
  else if v < 62 then v - 4
  else if v = 62 then 43
  else 47

/-- Inverse of `b64char` on alphabet bytes; `none` for a byte outside the
standard alphabet. -/
def b64val (c : Nat) : Option Nat :=
  if 65 ≤ c ∧ c ≤ 90 then some (c - 65)
  else if 97 ≤ c ∧ c ≤ 122 then some (c - 71)
  else if 48 ≤ c ∧ c ≤ 57 then some (c + 4)
  else if c = 43 then some 62
  else if c = 47 then some 63
  else none

/-- `base64.RawStdEncoding.EncodeToString`: unpadded standard-alphabet
base64 of a byte sequence. -/
def rawStdEncode : Bytes → Bytes
  | a :: b :: c :: rest =>
      b64char (a % 256 / 4) ::
      b64char (a % 4 * 16 + b % 256 / 16) ::
      b64char (b % 16 * 4 + c % 256 / 64) ::
      b64char (c % 64) :: rawStdEncode rest
  | [a, b] =>
      [b64char (a % 256 / 4), b64char (a % 4 * 16 + b % 256 / 16),
       b64char (b % 16 * 4)]
  | [a] => [b64char (a % 256 / 4), b64char (a % 4 * 16)]
  | [] => []

/-- `base64.StdEncoding.EncodeToString`: padded standard-alphabet base64
(byte 61 is the `=` pad). -/
def stdPadEncode : Bytes → Bytes
  | a :: b :: c :: rest =>
      b64char (a % 256 / 4) ::
      b64char (a % 4 * 16 + b % 256 / 16) ::
      b64char (b % 16 * 4 + c % 256 / 64) ::
      b64char (c % 64) :: stdPadEncode rest
  | [a, b] =>
      [b64char (a % 256 / 4), b64char (a % 4 * 16 + b % 256 / 16),
       b64char (b % 16 * 4), 61]
  | [a] => [b64char (a % 256 / 4), b64char (a % 4 * 16), 61, 61]
  | [] => []

/-- `base64.RawStdEncoding.DecodeString`: `none` on a byte outside the
alphabet or an impossible length (≡ 1 mod 4). -/
def rawStdDecode : Bytes → Option Bytes
  | [] => some []
  | [_] => none
  | [c1, c2] => do
      let v1 ← b64val c1
      let v2 ← b64val c2
      pure [v1 * 4 + v2 / 16]
  | [c1, c2, c3] => do
      let v1 ← b64val c1
      let v2 ← b64val c2
      let v3 ← b64val c3
      pure [v1 * 4 + v2 / 16, v2 % 16 * 16 + v3 / 4]
  | c1 :: c2 :: c3 :: c4 :: rest => do
      let v1 ← b64val c1
      let v2 ← b64val c2
      let v3 ← b64val c3
      let v4 ← b64val c4
      let tl ← rawStdDecode rest
      pure ((v1 * 4 + v2 / 16) :: (v2 % 16 * 16 + v3 / 4) :: (v3 % 4 * 64 + v4) :: tl)

/-! ## `strings.Split` on `"."` -/

/-- `strings.Split(s, ".")`, byte 46 being the dot. -/
def splitOnDot : Bytes → List Bytes
  | [] => [[]]
  | 46 :: rest => [] :: splitOnDot rest
  | b :: rest =>
      match splitOnDot rest with
      | h :: t => (b :: h) :: t
      | [] => [[b]]

/-! ## SHA-256 and HMAC-SHA256 (Go `crypto/sha256`, `crypto/hmac`) -/

/-- 32-bit addition. -/
def add32 (a b : Nat) : Nat := (a + b) % 4294967296

/-- Rotate a 32-bit word right by `n`. -/
def rotr32 (n x : Nat) : Nat := (x >>> n ||| x <<< (32 - n)) % 4294967296

/-- SHA-256 `Ch(x,y,z)`. -/
def shaCh (x y z : Nat) : Nat := x &&& y ^^^ ((x ^^^ 4294967295) &&& z)

/-- SHA-256 `Maj(x,y,z)`. -/
def shaMaj (x y z : Nat) : Nat := x &&& y ^^^ x &&& z ^^^ y &&& z

/-- SHA-256 `Σ0`. -/
def bigSigma0 (x : Nat) : Nat := rotr32 2 x ^^^ rotr32 13 x ^^^ rotr32 22 x

/-- SHA-256 `Σ1`. -/
def bigSigma1 (x : Nat) : Nat := rotr32 6 x ^^^ rotr32 11 x ^^^ rotr32 25 x

/-- SHA-256 `σ0`. -/
def smallSigma0 (x : Nat) : Nat := rotr32 7 x ^^^ rotr32 18 x ^^^ x >>> 3

/-- SHA-256 `σ1`. -/
def smallSigma1 (x : Nat) : Nat := rotr32 17 x ^^^ rotr32 19 x ^^^ x >>> 10

/-- The 64 SHA-256 round constants. -/
def sha256K : List Nat :=
  [1116352408, 1899447441, 3049323471, 3921009573, 961987163,
   1508970993, 2453635748, 2870763221, 3624381080, 310598401,
   607225278, 1426881987, 1925078388, 2162078206, 2614888103,
   3248222580, 3835390401, 4022224774, 264347078, 604807628,
   770255983, 1249150122, 1555081692, 1996064986, 2554220882,
   2821834349, 2952996808, 3210313671, 3336571891, 3584528711,
   113926993, 338241895, 666307205, 773529912, 1294757372,
   1396182291, 1695183700, 1986661051, 2177026350, 2456956037,
   2730485921, 2820302411, 3259730800, 3345764771, 3516065817,
   3600352804, 4094571909, 275423344, 430227734, 506948616,
   659060556, 883997877, 958139571, 1322822218, 1537002063,
   1747873779, 1955562222, 2024104815, 2227730452, 2361852424,
   2428436474, 2756734187, 3204031479, 3329325298]

/-- The eight 32-bit words of a SHA-256 chaining state. -/
structure Hash8 where
  a : Nat
  b : Nat
  c : Nat
  d : Nat
  e : Nat
  f : Nat
  g : Nat
  hh : Nat
deriving DecidableEq

/-- The SHA-256 initial state. -/
def sha256Init : Hash8 :=
  ⟨1779033703, 3144134277, 1013904242, 2773480762,
   1359893119, 2600822924, 528734635, 1541459225⟩

/-- Extend a reversed 16-word message block by `n` schedule words (the new
word is consed on the front, so indices 1, 6, 14, 15 of the reversed list
are `W[t-2]`, `W[t-7]`, `W[t-15]`, `W[t-16]`). -/
def extSched : Nat → List Nat → List Nat
  | 0, ws => ws
  | n + 1, ws =>
      extSched n
        (add32 (add32 (smallSigma1 (ws.getD 1 0)) (ws.getD 6 0))
           (add32 (smallSigma0 (ws.getD 14 0)) (ws.getD 15 0)) :: ws)

/-- One SHA-256 round with round input `kw = K[t] + W[t]`. -/
def shaRound (st : Hash8) (kw : Nat) : Hash8 :=
  let t1 := add32 (add32 (add32 st.hh (bigSigma1 st.e)) (shaCh st.e st.f st.g)) kw
  let t2 := add32 (bigSigma0 st.a) (shaMaj st.a st.b st.c)
  ⟨add32 t1 t2, st.a, st.b, st.c, add32 st.d t1, st.e, st.f, st.g⟩

/-- Big-endian bytes of a 32-bit word. -/
def be32 (x : Nat) : Bytes :=
  [x / 16777216 % 256, x / 65536 % 256, x / 256 % 256, x % 256]

/-- Big-endian bytes of a 64-bit word. -/
def be64 (x : Nat) : Bytes :=
  [x / 2 ^ 56 % 256, x / 2 ^ 48 % 256, x / 2 ^ 40 % 256, x / 2 ^ 32 % 256,
   x / 16777216 % 256, x / 65536 % 256, x / 256 % 256, x % 256]

/-- Group 4 big-endian bytes at a time into 32-bit words. -/
def bytesToWords : Bytes → List Nat
  | b0 :: b1 :: b2 :: b3 :: rest =>
      (b0 % 256 * 16777216 + b1 % 256 * 65536 + b2 % 256 * 256 + b3 % 256) ::
        bytesToWords rest
  | _ => []

/-- Compress one 64-byte block into the chaining state. -/
def compressBlock (st : Hash8) (block : Bytes) : Hash8 :=
  let w16 := bytesToWords block
  let ws := (extSched 48 w16.reverse).reverse
  let t := (sha256K.zip ws).foldl (fun s kw => shaRound s (add32 kw.1 kw.2)) st
  ⟨add32 st.a t.a, add32 st.b t.b, add32 st.c t.c, add32 st.d t.d,
   add32 st.e t.e, add32 st.f t.f, add32 st.g t.g, add32 st.hh t.hh⟩

/-- SHA-256 padding: a `0x80` byte, zeros to 56 mod 64, then the bit length
as a big-endian 64-bit word. -/
def shaPad (msg : Bytes) : Bytes :=
  msg ++ 128 :: List.replicate ((64 - (msg.length + 9) % 64) % 64) 0 ++
    be64 (8 * msg.length)

/-- Split a padded message into 64-byte blocks. -/
def toBlocks (bs : Bytes) : List Bytes :=
  if h : bs = [] then []
  else bs.take 64 :: toBlocks (bs.drop 64)
termination_by bs.length
decreasing_by
  have : bs.length ≠ 0 := fun hl => h (List.eq_nil_of_length_eq_zero hl)
  simp [List.length_drop]
  omega

/-- The SHA-256 digest (32 bytes) of a byte sequence. -/
def sha256 (msg : Bytes) : Bytes :=
  let fin := (toBlocks (shaPad msg)).foldl compressBlock sha256Init
  be32 fin.a ++ be32 fin.b ++ be32 fin.c ++ be32 fin.d ++
    be32 fin.e ++ be32 fin.f ++ be32 fin.g ++ be32 fin.hh

/-- HMAC-SHA256 (`hmac.New(sha256.New, key)` followed by `Write`/`Sum`):
the key is hashed if longer than the 64-byte block, zero-padded to 64
bytes, and the digest is `H((k ⊕ opad) ‖ H((k ⊕ ipad) ‖ msg))`. -/
def hmacSha256 (key msg : Bytes) : Bytes :=
  let k1 := if 64 < key.length then sha256 key else key
  let k0 := k1 ++ List.replicate (64 - k1.length) 0
  sha256 (k0.map (fun b => b ^^^ 92) ++
    sha256 (k0.map (fun b => b ^^^ 54) ++ msg))

theorem sha256_length (msg : Bytes) : (sha256 msg).length = 32 := by
  simp [sha256, be32]

theorem hmacSha256_length (key msg : Bytes) :
    (hmacSha256 key msg).length = 32 := by
  simp [hmacSha256, sha256_length]

/-! ## The data model shared by the two packages

`jwts.go` and `jwtx.go` declare byte-for-byte identical `Header`,
`Claims`, `CreateTokenParams`/`CreateJWTParams` and `TokenChunks` types,
so they are declared once here. -/

/-- Go `Header` struct (fields `alg`, `typ` in JSON). -/
structure Header where
  alg : Bytes
  typ : Bytes
deriving DecidableEq

/-- Go `Claims` struct; `Nbf *int64 json:"nbf,omitempty"` is an optional
field. -/
structure Claims where
  aud : List Bytes
  exp : Int
  iat : Int
  iss : Bytes
  nbf : Option Int
  sub : Bytes
deriving DecidableEq

/-- Go `CreateTokenParams` (`jwts`) / `CreateJWTParams` (`jwtx`). -/
structure CreateTokenParams where
  aud : List Bytes
  iss : Bytes
  sub : Bytes
  lifetime : Int
  delay : Option Int
deriving DecidableEq

/-- Go `TokenChunks`: the three still-encoded segments. -/
structure TokenChunks where
  header : Bytes
  claims : Bytes
  signature : Bytes
deriving DecidableEq

/-! ## JSON marshalling (Go `encoding/json`, specialised to these types)

Go's encoder emits struct fields in declaration order, escapes `"`,
`\`, control bytes and (HTML escaping, on by default) `<` `>` `&`,
and drops an `omitempty` pointer field only when the pointer is nil. -/

/-- Lowercase hex digit byte. -/
def hexCh (n : Nat) : Nat := if n < 10 then 48 + n else 87 + n

/-- Go's JSON escaping of one string byte. -/
def escByte (b : Nat) : Bytes :=
  if b = 34 then [92, 34]
  else if b = 92 then [92, 92]
  else if b = 10 then [92, 110]
  else if b = 13 then [92, 114]
  else if b = 9 then [92, 116]
  else if b < 32 ∨ b = 60 ∨ b = 62 ∨ b = 38 then
    [92, 117, 48, 48, hexCh (b / 16), hexCh (b % 16)]
  else [b]

/-- Escape every byte of a string. -/
def escapeBytes (s : Bytes) : Bytes := (s.map escByte).flatten

/-- A JSON string literal: quote, escaped bytes, quote. -/
def marshalString (s : Bytes) : Bytes := [34] ++ escapeBytes s ++ [34]

/-- Decimal digits of a natural number. -/
def natToDec (n : Nat) : Bytes :=
  if n < 10 then [48 + n] else natToDec (n / 10) ++ [48 + n % 10]
decreasing_by exact Nat.div_lt_self (by omega) (by omega)

/-- Decimal text of an integer (Go `int64` JSON form). -/
def intBytes (v : Int) : Bytes :=
  if v < 0 then 45 :: natToDec (-v).toNat else natToDec v.toNat

/-- Elements of a JSON string array, comma separated. -/
def marshalStrArrBody : List Bytes → Bytes
  | [] => []
  | [s] => marshalString s
  | s :: rest => marshalString s ++ [44] ++ marshalStrArrBody rest

/-- A JSON array of strings (a nil Go slice would render as `null`;
the model identifies nil and empty slices, both rendering `[]`). -/
def marshalStrArr (l : List Bytes) : Bytes := [91] ++ marshalStrArrBody l ++ [93]

/-- `json.Marshal` of a `Header` value. -/
def marshalHeader (h : Header) : Bytes :=
  [123] ++ strBytes "\"alg\":" ++ marshalString h.alg ++
  [44] ++ strBytes "\"typ\":" ++ marshalString h.typ ++ [125]

/-- `json.Marshal` of a `Claims` value: fields in declaration order
`aud, exp, iat, iss, nbf, sub`, with `nbf` omitted when the pointer is
nil. -/
def marshalClaims (c : Claims) : Bytes :=
  [123] ++ strBytes "\"aud\":" ++ marshalStrArr c.aud ++
  [44] ++ strBytes "\"exp\":" ++ intBytes c.exp ++
  [44] ++ strBytes "\"iat\":" ++ intBytes c.iat ++
  [44] ++ strBytes "\"iss\":" ++ marshalString c.iss ++
  (match c.nbf with
   | some v => [44] ++ strBytes "\"nbf\":" ++ intBytes v
   | none => []) ++
  [44] ++ strBytes "\"sub\":" ++ marshalString c.sub ++ [125]

/-- `json.Marshal` of a `[]byte` value: Go renders a byte slice as a
quoted, padded standard base64 string. -/
def marshalByteSlice (bs : Bytes) : Bytes := [34] ++ stdPadEncode bs ++ [34]

/-! ## JSON unmarshalling (Go `encoding/json`, the fragment used here)

The tokens of this system only ever contain one flat object whose values
are strings, 64-bit integers, arrays of strings, or `null`, so the reader
implemented here covers exactly that fragment (plus `true`/`false` for
skipped unknown fields); Go's reader is more lenient (whitespace,
nesting, floats) but agrees on this fragment. -/

/-- Value of a hex digit byte. -/
def hexVal (c : Nat) : Option Nat :=
  if 48 ≤ c ∧ c ≤ 57 then some (c - 48)
  else if 97 ≤ c ∧ c ≤ 102 then some (c - 87)
  else if 65 ≤ c ∧ c ≤ 70 then some (c - 55)
  else none

/-- One-character JSON escapes. -/
def unescSimple (c : Nat) : Option Nat :=
  if c = 34 then some 34
  else if c = 92 then some 92
  else if c = 47 then some 47
  else if c = 98 then some 8
  else if c = 102 then some 12
  else if c = 110 then some 10
  else if c = 114 then some 13
  else if c = 116 then some 9
  else none

/-- UTF-8 bytes of a code point below `0x10000` (Go re-encodes a `\u`
escape as UTF-8). -/
def utf8enc (v : Nat) : Bytes :=
  if v < 128 then [v]
  else if v < 2048 then [192 + v / 64, 128 + v % 64]
  else [224 + v / 4096, 128 + v / 64 % 64, 128 + v % 64]

/-- Read a JSON string body (after the opening quote) up to the closing
quote, undoing escapes; returns the string and the remaining input. -/
def parseStrAux : Bytes → Option (Bytes × Bytes)
  | 34 :: rest => some ([], rest)
  | 92 :: 117 :: h1 :: h2 :: h3 :: h4 :: rest => do
      let v1 ← hexVal h1
      let v2 ← hexVal h2
      let v3 ← hexVal h3
      let v4 ← hexVal h4
      let (s, r) ← parseStrAux rest
      pure (utf8enc (v1 * 4096 + v2 * 256 + v3 * 16 + v4) ++ s, r)
  | 92 :: e :: rest => do
      let b ← unescSimple e
      let (s, r) ← parseStrAux rest
      pure (b :: s, r)
  | b :: rest => do
      let (s, r) ← parseStrAux rest
      pure (b :: s, r)
  | [] => none

/-- Read a maximal run of decimal digits. -/
def parseDigitsAux (acc : Nat) : Bytes → Nat × Bytes
  | b :: rest =>
      if 48 ≤ b ∧ b ≤ 57 then parseDigitsAux (acc * 10 + (b - 48)) rest
      else (acc, b :: rest)
  | [] => (acc, [])

/-- Read a JSON integer into an `int64`, rejecting values out of range
(as Go's decode into an `int64` field does). -/
def parseJInt (bs : Bytes) : Option (Int × Bytes) :=
  match bs with
  | 45 :: b :: rest =>
      if 48 ≤ b ∧ b ≤ 57 then
        let p := parseDigitsAux 0 (b :: rest)
        if p.1 ≤ 2 ^ 63 then some (-(p.1 : Int), p.2) else none
      else none
  | b :: rest =>
      if 48 ≤ b ∧ b ≤ 57 then
        let p := parseDigitsAux 0 (b :: rest)
        if p.1 ≤ 2 ^ 63 - 1 then some ((p.1 : Int), p.2) else none
      else none
  | [] => none

/-- Read the elements of a nonempty JSON string array (after `[`). -/
def arrLoop : Nat → Bytes → Option (List Bytes × Bytes)
  | 0, _ => none
  | fuel + 1, bs =>
      match bs with
      | 34 :: rest => do
          let (s, r1) ← parseStrAux rest
          match r1 with
          | 44 :: r2 => do
              let (tl, r3) ← arrLoop fuel r2
              pure (s :: tl, r3)
          | 93 :: r2 => pure ([s], r2)
          | _ => none
      | _ => none

/-- Read a JSON array of strings. -/
def parseJStrArray (bs : Bytes) : Option (List Bytes × Bytes) :=
  match bs with
  | 91 :: 93 :: rest => some ([], rest)
  | 91 :: rest => arrLoop (rest.length + 1) rest
  | _ => none

/-- Skip one flat JSON value (for unknown object keys). -/
def skipFlatValue (bs : Bytes) : Option Bytes :=
  match bs with
  | 34 :: rest => (parseStrAux rest).map (fun p => p.2)
  | 110 :: 117 :: 108 :: 108 :: rest => some rest
  | 116 :: 114 :: 117 :: 101 :: rest => some rest
  | 102 :: 97 :: 108 :: 115 :: 101 :: rest => some rest
  | 91 :: _ => (parseJStrArray bs).map (fun p => p.2)
  | _ => (parseJInt bs).map (fun p => p.2)

/-- The zero `Claims` value Go starts decoding into. -/
def zeroClaims : Claims := ⟨[], 0, 0, [], none, []⟩

/-- The zero `Header` value. -/
def zeroHeader : Header := ⟨[], []⟩

/-- Read a JSON string literal (opening quote then body). -/
def parseJStringLit (bs : Bytes) : Option (Bytes × Bytes) :=
  match bs with
  | 34 :: rest => parseStrAux rest
  | _ => none

/-- Decode one `Claims` object field into the accumulator (unknown keys
are skipped, as Go does). -/
def assignField (key : Bytes) (bs : Bytes) (acc : Claims) :
    Option (Claims × Bytes) :=
  if key = strBytes "aud" then
    if bs.take 4 = strBytes "null" then some ({acc with aud := []}, bs.drop 4)
    else (parseJStrArray bs).map (fun p => ({acc with aud := p.1}, p.2))
  else if key = strBytes "exp" then
    (parseJInt bs).map (fun p => ({acc with exp := p.1}, p.2))
  else if key = strBytes "iat" then
    (parseJInt bs).map (fun p => ({acc with iat := p.1}, p.2))
  else if key = strBytes "iss" then
    (parseJStringLit bs).map (fun p => ({acc with iss := p.1}, p.2))
  else if key = strBytes "nbf" then
    if bs.take 4 = strBytes "null" then some ({acc with nbf := none}, bs.drop 4)
    else (parseJInt bs).map (fun p => ({acc with nbf := some p.1}, p.2))
  else if key = strBytes "sub" then
    (parseJStringLit bs).map (fun p => ({acc with sub := p.1}, p.2))
  else (skipFlatValue bs).map (fun rest => (acc, rest))

/-- Read the fields of a nonempty `Claims` object (after `{`). -/
def claimsLoop : Nat → Bytes → Claims → Option (Claims × Bytes)
  | 0, _, _ => none
  | fuel + 1, bs, acc =>
      match bs with
      | 34 :: rest => do
          let (key, r1) ← parseStrAux rest
          match r1 with
          | 58 :: r2 => do
              let (acc2, r3) ← assignField key r2 acc
              match r3 with
              | 44 :: r4 => claimsLoop fuel r4 acc2
              | 125 :: r4 => some (acc2, r4)
              | _ => none
          | _ => none
      | _ => none

/-- `json.Unmarshal` into a `Claims` value. -/
def parseClaims (bs : Bytes) : Option Claims :=
  match bs with
  | 123 :: rest =>
      if rest = [125] then some zeroClaims
      else
        match claimsLoop bs.length rest zeroClaims with
        | some (c, []) => some c
        | _ => none
  | _ => none

/-- Decode one `Header` object field. -/
def assignHeaderField (key : Bytes) (bs : Bytes) (acc : Header) :
    Option (Header × Bytes) :=
  if key = strBytes "alg" then
    (parseJStringLit bs).map (fun p => ({acc with alg := p.1}, p.2))
  else if key = strBytes "typ" then
    (parseJStringLit bs).map (fun p => ({acc with typ := p.1}, p.2))
  else (skipFlatValue bs).map (fun rest => (acc, rest))

/-- Read the fields of a nonempty `Header` object (after `{`). -/
def headerLoop : Nat → Bytes → Header → Option (Header × Bytes)
  | 0, _, _ => none
  | fuel + 1, bs, acc =>
      match bs with
      | 34 :: rest => do
          let (key, r1) ← parseStrAux rest
          match r1 with
          | 58 :: r2 => do
              let (acc2, r3) ← assignHeaderField key r2 acc
              match r3 with
              | 44 :: r4 => headerLoop fuel r4 acc2
              | 125 :: r4 => some (acc2, r4)
              | _ => none
          | _ => none
      | _ => none

/-- `json.Unmarshal` into a `Header` value. -/
def parseHeader (bs : Bytes) : Option Header :=
  match bs with
  | 123 :: rest =>
      if rest = [125] then some zeroHeader
      else
        match headerLoop bs.length rest zeroHeader with
        | some (h, []) => some h
        | _ => none
  | _ => none

/-! ## Errors and outcomes

The union of the `errors.New` values of the two packages. -/

/-- The error values of `jwts.go` and `jwtx.go`; `base64DecodeFailed` and
`jsonUnmarshalFailed` stand for the library errors the standard library
returns through `decodeFromBase64` / `json.Unmarshal`. -/
inductive Err where
  | sourceIsNil
  | nilCreateTokenParams
  | headerIsNil
  | claimsIsNil
  | secretIsNil
  | tokenIsNil
  | invalidToken
  | base64DecodeFailed
  | jsonUnmarshalFailed
  | tokenIsExpired
  | tokenIssuedBeforeNow
  | tokenUsedBeforeExpected
  | audChunkNotFound
  | nilTokenDetails
  | tokenPayloadIsNil
deriving DecidableEq

/-- The outcome of running a Go function that may dereference a nil
pointer: a normal return value, or a runtime panic. -/
inductive GoStep (α : Type) where
  | ok (val : α)
  | crashed
deriving DecidableEq

/-- Dereference a Go pointer: panic when it is nil. -/
def goDeref {α β : Type} (x : Option α) (k : α → GoStep β) : GoStep β :=
  match x with
  | some a => k a
  | none => .crashed

/-! ## Functions shared verbatim by the two packages

`decodeFromBase64`, `unmarshalHeader` and `unmarshalClaims` are
byte-for-byte identical in `jwts.go` and `jwtx.go` (as are the claims
builders), so they are defined once. -/

/-- `decodeFromBase64(source *string, err error)`: error passthrough, nil
check, then base64 decode.  Go returns the (possibly partial) decoded
data alongside a decode error; the data is never read on the error path,
so the model returns `[]` there. -/
def decodeFromBase64 (source : Option Bytes) (err : Option Err) :
    Option Bytes × Option Err :=
  match err with
  | some e => (none, some e)
  | none =>
      match source with
      | none => (none, some .sourceIsNil)
      | some s =>
          match rawStdDecode s with
          | some d => (some d, none)
          | none => (some [], some .base64DecodeFailed)

/-- `unmarshalHeader(header *string, err error)`: Go always returns the
address of its local `headerDetails`, zero-valued on a JSON error. -/
def unmarshalHeader (header : Option Bytes) (err : Option Err) :
    Option Header × Option Err :=
  match err with
  | some e => (none, some e)
  | none =>
      match header with
      | none => (none, some .headerIsNil)
      | some s =>
          match parseHeader s with
          | some hd => (some hd, none)
          | none => (some zeroHeader, some .jsonUnmarshalFailed)

/-- `unmarshalClaims(claims *string, err error)`: likewise. -/
def unmarshalClaims (claims : Option Bytes) (err : Option Err) :
    Option Claims × Option Err :=
  match err with
  | some e => (none, some e)
  | none =>
      match claims with
      | none => (none, some .claimsIsNil)
      | some s =>
          match parseClaims s with
          | some cd => (some cd, none)
          | none => (some zeroClaims, some .jsonUnmarshalFailed)

/-- The `Claims` record built by `createClaims` / `createJWTClaims` from
the parameters and the current time: `exp = now + lifetime`,
`iat = now`, and `nbf` always points at a value — `now + delay` when a
delay is given, the zero `int64` otherwise. -/
def mkClaims (p : CreateTokenParams) (now : Int) : Claims :=
  { aud := p.aud
    exp := i64add now p.lifetime
    iat := now
    iss := p.iss
    nbf := some (match p.delay with | some d => i64add now d | none => 0)
    sub := p.sub }

/-- `createClaims(params, err)` (= `createJWTClaims`): build the claims
record and pass it through `json.Marshal` + unpadded base64
(`encodeJSONToBase64` / `encodeToBase64`). -/
def createClaims (params : Option CreateTokenParams) (err : Option Err)
    (now : Int) : Option Bytes × Option Err :=
  match err with
  | some e => (none, some e)
  | none =>
      match params with
      | none => (none, some .nilCreateTokenParams)
      | some p => (some (rawStdEncode (marshalClaims (mkClaims p now))), none)

/-- The process-wide default header `{Alg: "HS256", Typ: "JWT"}`. -/
def DefaultHeader : Header := ⟨strBytes "HS256", strBytes "JWT"⟩

/-- `DefaultHeaderBase64` / `headerBase64`: the cached
`encodeJSONToBase64(&DefaultHeader)` value. -/
def DefaultHeaderBase64 : Bytes := rawStdEncode (marshalHeader DefaultHeader)

/-- `generateRandomByteArray(n, err)`: `rand.Read` fills `n` bytes from
the random source (modelled as the byte stream `rand`); it does not fail. -/
def generateRandomByteArray (n : Nat) (err : Option Err) (rand : Nat → Nat) :
    Option Bytes × Option Err :=
  match err with
  | some e => (none, some e)
  | none => (some ((List.range n).map (fun i => rand i % 256)), none)

namespace Jwts

/-- `jwts.TokenDetails`: decoded header and claims, held by value. -/
structure TokenDetails where
  header : Header
  claims : Claims
deriving DecidableEq

/-- The `for … range` scan of `jwts.findAudChunk`. -/
def audScan : List Bytes → Bytes → Bool
  | [], _ => false
  | a :: rest, t => if a = t then true else audScan rest t

/-- `jwts.findAudChunk`: error passthrough, nil target accepted as
"not found", then a linear scan of the `aud` list. -/
def findAudChunk (aud : List Bytes) (audTarget : Option Bytes)
    (err : Option Err) : Bool × Option Err :=
  match err with
  | some e => (false, some e)
  | none =>
      match audTarget with
      | none => (false, none)
      | some t => (audScan aud t, none)

/-- `jwts.parseTokenChunks` (= `jwtx.retrieveTokenChunks`):
`strings.Split(token, ".")` must give exactly 3 chunks. -/
def parseTokenChunks (token : Option Bytes) (err : Option Err) :
    Option TokenChunks × Option Err :=
  match err with
  | some e => (none, some e)
  | none =>
      match token with
      | none => (none, some .tokenIsNil)
      | some t =>
          match splitOnDot t with
          | [a, b, c] => (some ⟨a, b, c⟩, none)
          | _ => (none, some .invalidToken)

/-- Does the not-before check of `validateTokenTimes` /
`ValidateTokenByWindowAndAud` reject?  `nbf` present and
`*nbf - now >= 0` (int64 arithmetic). -/
def nbfRejects (nbf : Option Int) (now : Int) : Bool :=
  match nbf with
  | some v => decide (0 ≤ i64sub v now)
  | none => false

/-- `jwts.validateTokenTimes`: error passthrough, then the three time
checks on the dereferenced details (`iat - now > 0` rejects; the
not-before check; `exp - now > 0` accepts; otherwise reject), all
boolean, never an error.  The dereference panics on nil details. -/
def validateTokenTimes (td : Option TokenDetails) (err : Option Err)
    (now : Int) : GoStep (Bool × Option Err) :=
  match err with
  | some e => .ok (false, some e)
  | none =>
      goDeref td fun d =>
        if 0 < i64sub d.claims.iat now then .ok (false, none)
        else if nbfRejects d.claims.nbf now then .ok (false, none)
        else if 0 < i64sub d.claims.exp now then .ok (true, none)
        else .ok (false, none)

/-- `jwts.createSignature`: nil checks, then unpadded base64 of the raw
HMAC-SHA256 of `header + "." + claims`. -/
def createSignature (header claims secret : Option Bytes) (err : Option Err) :
    Option Bytes × Option Err :=
  match err with
  | some e => (none, some e)
  | none =>
      match header with
      | none => (none, some .headerIsNil)
      | some hd =>
          match claims with
          | none => (none, some .claimsIsNil)
          | some cl =>
              match secret with
              | none => (none, some .secretIsNil)
              | some s =>
                  (some (rawStdEncode (hmacSha256 s (hd ++ 46 :: cl))), none)

/-- `jwts.parseTokenDetails`: decode and unmarshal both chunks, then
build `TokenDetails{Header: *headerDetails, Claims: *claimsDetails}` —
the two dereferences panic when an earlier stage failed and left a nil
pointer. -/
def parseTokenDetails (chunks : Option TokenChunks) (err : Option Err) :
    GoStep (Option TokenDetails × Option Err) :=
  match err with
  | some e => .ok (none, some e)
  | none =>
      match chunks with
      | none => .ok (none, some .tokenIsNil)
      | some ch =>
          let d1 := decodeFromBase64 (some ch.header) none
          let h1 := unmarshalHeader d1.1 d1.2
          let d2 := decodeFromBase64 (some ch.claims) h1.2
          let c1 := unmarshalClaims d2.1 d2.2
          goDeref h1.1 fun hd =>
            goDeref c1.1 fun cd => .ok (some ⟨hd, cd⟩, c1.2)

/-- `jwts.validateSignature`: recompute the signature over the chunks and
compare.  Taking `&chunks.Header` at the call site panics on nil chunks. -/
def validateSignature (chunks : Option TokenChunks) (secret : Option Bytes)
    (err : Option Err) : GoStep (Bool × Option Err) :=
  goDeref chunks fun ch =>
    let sc := createSignature (some ch.header) (some ch.claims) secret err
    match sc.2 with
    | some e => .ok (false, some e)
    | none =>
        goDeref sc.1 fun sig => .ok (decide (ch.signature = sig), none)

/-- `jwts.CreateToken`: nil-secret check, claims, signature over the
cached default header, then `header + "." + claims + "." + signature`.
(When `errSignature` is nil, both dereferenced pointers are non-nil, so
the function cannot panic.) -/
def CreateToken (params : Option CreateTokenParams) (secret : Option Bytes)
    (err : Option Err) (now : Int) : Option Bytes × Option Err :=
  match secret with
  | none => (none, some .secretIsNil)
  | some _ =>
      let cc := createClaims params err now
      let sg := createSignature (some DefaultHeaderBase64) cc.1 secret cc.2
      match sg.2 with
      | some e => (none, some e)
      | none =>
          match cc.1, sg.1 with
          | some cl, some sig =>
              (some (DefaultHeaderBase64 ++ 46 :: (cl ++ 46 :: sig)), none)
          | _, _ => (none, none)

/-- `jwts.VerifyToken`: parse chunks, decode details, scan the audience,
then check the time window.  Taking `&tokenDetails.Claims.Aud` at the
`findAudChunk` call site panics when the details pointer is nil. -/
def VerifyToken (token : Option Bytes) (audTarget : Option Bytes)
    (err : Option Err) (now : Int) : GoStep (Bool × Option Err) :=
  let pc := parseTokenChunks token err
  match parseTokenDetails pc.1 pc.2 with
  | .crashed => .crashed
  | .ok (td, eTD) =>
      goDeref td fun d =>
        let fa := findAudChunk d.claims.aud audTarget eTD
        if fa.1 = false then .ok (false, fa.2)
        else validateTokenTimes td fa.2 now

/-- `jwts.ValidateToken`: parse chunks, then check the signature. -/
def ValidateToken (token : Option Bytes) (secret : Option Bytes)
    (err : Option Err) : GoStep (Bool × Option Err) :=
  let pc := parseTokenChunks token err
  validateSignature pc.1 secret pc.2

end Jwts

namespace Jwtx

/-- `jwtx.TokenPayload`: the token together with the (generated) secret
and signature. -/
structure TokenPayload where
  token : Option Bytes
  secret : Option Bytes
  signature : Option Bytes
deriving DecidableEq

/-- `jwtx.TokenDetails`: header and claims held as pointers. -/
structure TokenDetails where
  header : Option Header
  claims : Option Claims
deriving DecidableEq

/-- `jwtx.findAudChunk(aud *[]string, audTarget string) bool`: plain scan. -/
def findAudChunk : List Bytes → Bytes → Bool
  | [], _ => false
  | a :: rest, t => if a = t then true else findAudChunk rest t

/-- `jwtx.generateSignature`: nil checks, HMAC-SHA256 over
`header + "." + claims`, then `encodeToBase64(signature)` — which
`json.Marshal`s the byte slice (quoted padded base64) before the
unpadded base64 encoding. -/
def generateSignature (header claims secret : Option Bytes)
    (err : Option Err) : Option Bytes × Option Err :=
  match err with
  | some e => (none, some e)
  | none =>
      match header with
      | none => (none, some .headerIsNil)
      | some hd =>
          match claims with
          | none => (none, some .claimsIsNil)
          | some cl =>
              match secret with
              | none => (none, some .secretIsNil)
              | some s =>
                  (some (rawStdEncode
                    (marshalByteSlice (hmacSha256 s (hd ++ 46 :: cl)))), none)

/-- `jwtx.CreateJWT`: fresh claims, a 128-byte random secret, signature,
then the token string is built by dereferencing `*claims` and
`*signature` before any error check — a nil-params call panics there. -/
def CreateJWT (params : Option CreateTokenParams) (err : Option Err)
    (rand : Nat → Nat) (now : Int) : GoStep (Option TokenPayload × Option Err) :=
  match err with
  | some e => .ok (none, some e)
  | none =>
      let cc := createClaims params none now
      let sc := generateRandomByteArray 128 cc.2 rand
      let sg := generateSignature (some DefaultHeaderBase64) cc.1 sc.1 sc.2
      goDeref cc.1 fun cl =>
        goDeref sg.1 fun sig =>
          .ok (some ⟨some (DefaultHeaderBase64 ++ 46 :: (cl ++ 46 :: sig)),
                sc.1, sg.1⟩, sg.2)

/-- `jwtx.CreateJWTFromSecret`: after the nil check the `secret`
parameter is shadowed by a freshly generated 128-byte random secret;
otherwise identical to `CreateJWT`. -/
def CreateJWTFromSecret (params : Option CreateTokenParams)
    (secret : Option Bytes) (err : Option Err) (rand : Nat → Nat)
    (now : Int) : GoStep (Option TokenPayload × Option Err) :=
  match err with
  | some e => .ok (none, some e)
  | none =>
      match secret with
      | none => .ok (none, some .secretIsNil)
      | some _ =>
          let cc := createClaims params none now
          let sc := generateRandomByteArray 128 cc.2 rand
          let sg := generateSignature (some DefaultHeaderBase64) cc.1 sc.1 sc.2
          goDeref cc.1 fun cl =>
            goDeref sg.1 fun sig =>
              .ok (some ⟨some (DefaultHeaderBase64 ++ 46 :: (cl ++ 46 :: sig)),
                    sc.1, sg.1⟩, sg.2)

/-- `jwtx.retrieveTokenChunks`: identical to `jwts.parseTokenChunks`. -/
def retrieveTokenChunks (token : Option Bytes) (err : Option Err) :
    Option TokenChunks × Option Err :=
  Jwts.parseTokenChunks token err

/-- `jwtx.ValidateJWT`: recompute the signature over the payload's token
chunks with the payload's secret and compare.  `&chunks.Header` panics
on nil chunks, and `*signature` panics when signing failed. -/
def ValidateJWT (tokenPayload : Option TokenPayload) (err : Option Err) :
    GoStep (Bool × Option Err) :=
  match err with
  | some e => .ok (false, some e)
  | none =>
      match tokenPayload with
      | none => .ok (false, some .tokenPayloadIsNil)
      | some tp =>
          let pc := retrieveTokenChunks tp.token none
          goDeref pc.1 fun ch =>
            let sg := generateSignature (some ch.header) (some ch.claims)
              tp.secret pc.2
            goDeref sg.1 fun sig =>
              .ok (decide (sig = ch.signature), sg.2)

/-- `jwtx.RetrieveTokenDetails`: chunks, then decode and unmarshal both
parts; the details hold the (possibly nil) pointers, but
`&chunks.Header` panics when the chunk parse failed. -/
def RetrieveTokenDetails (token : Option Bytes) (err : Option Err) :
    GoStep (Option TokenDetails × Option Err) :=
  match err with
  | some e => .ok (none, some e)
  | none =>
      match token with
      | none => .ok (none, some .tokenIsNil)
      | some t =>
          let pc := retrieveTokenChunks (some t) none
          goDeref pc.1 fun ch =>
            let d1 := decodeFromBase64 (some ch.header) pc.2
            let h1 := unmarshalHeader d1.1 d1.2
            let d2 := decodeFromBase64 (some ch.claims) h1.2
            let c1 := unmarshalClaims d2.1 d2.2
            .ok (some ⟨h1.1, c1.1⟩, c1.2)

/-- `jwtx.ValidateTokenByWindowAndAud`: details, early error returns,
audience scan (`AudienceNotFoundError`), then the three time checks with
their named errors (`IssuedBeforeNow`, `UsedBeforeExpected`, `Expired`). -/
def ValidateTokenByWindowAndAud (token : Option Bytes) (audTarget : Bytes)
    (err : Option Err) (now : Int) : GoStep (Bool × Option Err) :=
  match RetrieveTokenDetails token err with
  | .crashed => .crashed
  | .ok (td, eTD) =>
      match eTD with
      | some e => .ok (false, some e)
      | none =>
          match td with
          | none => .ok (false, some .nilTokenDetails)
          | some d =>
              goDeref d.claims fun c =>
                if findAudChunk c.aud audTarget = false then
                  .ok (false, some .audChunkNotFound)
                else if 0 < i64sub c.iat now then
                  .ok (false, some .tokenIssuedBeforeNow)
                else if Jwts.nbfRejects c.nbf now then
                  .ok (false, some .tokenUsedBeforeExpected)
                else if 0 < i64sub c.exp now then .ok (true, none)
                else .ok (false, some .tokenIsExpired)

end Jwtx

/-! ## Helper lemmas: base64 alphabet, splitting, round-trips -/

/-- Every byte of `s` is a byte value. -/
def ByteOk (s : Bytes) : Prop := ∀ b ∈ s, b < 256

instance (s : Bytes) : Decidable (ByteOk s) := by
  unfold ByteOk; infer_instance

theorem b64char_ne_dot (v : Nat) : b64char v ≠ 46 := by
  unfold b64char; split_ifs <;> omega

theorem rawStdEncode_no_dot (bs : Bytes) : 46 ∉ rawStdEncode bs := by
  induction bs using rawStdEncode.induct with
  | case1 a b c rest ih =>
      rw [rawStdEncode]
      simp only [List.mem_cons, not_or]
      exact ⟨fun e => b64char_ne_dot _ e.symm, fun e => b64char_ne_dot _ e.symm,
             fun e => b64char_ne_dot _ e.symm, fun e => b64char_ne_dot _ e.symm, ih⟩
  | case2 a b =>
      rw [rawStdEncode]
      simp only [List.mem_cons, List.not_mem_nil, not_or]
      exact ⟨fun e => b64char_ne_dot _ e.symm, fun e => b64char_ne_dot _ e.symm,
             fun e => b64char_ne_dot _ e.symm, not_false⟩
  | case3 a =>
      rw [rawStdEncode]
      simp only [List.mem_cons, List.not_mem_nil, not_or]
      exact ⟨fun e => b64char_ne_dot _ e.symm, fun e => b64char_ne_dot _ e.symm, not_false⟩
  | case4 => simp [rawStdEncode]

theorem splitOnDot_no_dot {a : Bytes} (h : 46 ∉ a) : splitOnDot a = [a] := by
  induction a with
  | nil => rfl
  | cons x rest ih =>
      have hx : x ≠ 46 := fun e => h (by simp [e])
      have hr : splitOnDot rest = [rest] := ih (fun hm => h (by simp [hm]))
      rw [splitOnDot.eq_def]
      split
      · simp_all
      · simp_all
      · rename_i b tail heq
        cases heq
        rw [hr]

theorem splitOnDot_append {a : Bytes} (h : 46 ∉ a) (r : Bytes) :
    splitOnDot (a ++ 46 :: r) = a :: splitOnDot r := by
  induction a with
  | nil => simp [splitOnDot]
  | cons x rest ih =>
      have hx : x ≠ 46 := fun e => h (by simp [e])
      have ih2 : splitOnDot (rest ++ 46 :: r) = rest :: splitOnDot r :=
        ih (fun hm => h (by simp [hm]))
      rw [List.cons_append, splitOnDot.eq_def]
      split
      · simp_all
      · simp_all
      · rename_i b tail heq
        cases heq
        rw [ih2]

/-- Splitting a three-segment dot-joined string recovers the segments. -/
theorem splitOnDot_three {a b c : Bytes} (ha : 46 ∉ a) (hb : 46 ∉ b)
    (hc : 46 ∉ c) : splitOnDot (a ++ 46 :: (b ++ 46 :: c)) = [a, b, c] := by
  rw [splitOnDot_append ha, splitOnDot_append hb, splitOnDot_no_dot hc]

theorem b64val_b64char : ∀ v, v < 64 → b64val (b64char v) = some v := by decide

theorem rawStdDecode_encode {bs : Bytes} (h : ByteOk bs) :
    rawStdDecode (rawStdEncode bs) = some bs := by
  induction bs using rawStdEncode.induct with
  | case1 a b c rest ih =>
      have ha : a < 256 := h a (by simp)
      have hb : b < 256 := h b (by simp)
      have hc : c < 256 := h c (by simp)
      have hrest : ByteOk rest := fun x hx => h x (by simp [hx])
      rw [rawStdEncode]
      simp only [Nat.mod_eq_of_lt ha, Nat.mod_eq_of_lt hb, Nat.mod_eq_of_lt hc]
      rw [rawStdDecode]
      rw [b64val_b64char _ (by omega), b64val_b64char _ (by omega),
          b64val_b64char _ (by omega), b64val_b64char _ (by omega), ih hrest]
      simp only [Option.bind_eq_bind, Option.some_bind, Option.some.injEq]
      have e1 : a / 4 * 4 + (a % 4 * 16 + b / 16) / 16 = a := by omega
      have e2 : (a % 4 * 16 + b / 16) % 16 * 16 + (b % 16 * 4 + c / 64) / 4 = b := by
        omega
      have e3 : (b % 16 * 4 + c / 64) % 4 * 64 + c % 64 = c := by omega
      rw [e1, e2, e3]
      rfl
  | case2 a b =>
      have ha : a < 256 := h a (by simp)
      have hb : b < 256 := h b (by simp)
      rw [rawStdEncode]
      simp only [Nat.mod_eq_of_lt ha, Nat.mod_eq_of_lt hb]
      rw [rawStdDecode]
      rw [b64val_b64char _ (by omega), b64val_b64char _ (by omega),
          b64val_b64char _ (by omega)]
      simp only [Option.bind_eq_bind, Option.some_bind, Option.some.injEq]
      have e1 : a / 4 * 4 + (a % 4 * 16 + b / 16) / 16 = a := by omega
      have e2 : (a % 4 * 16 + b / 16) % 16 * 16 + b % 16 * 4 / 4 = b := by omega
      rw [e1, e2]
      rfl
  | case3 a =>
      have ha : a < 256 := h a (by simp)
      rw [rawStdEncode]
      simp only [Nat.mod_eq_of_lt ha]
      rw [rawStdDecode]
      rw [b64val_b64char _ (by omega), b64val_b64char _ (by omega)]
      simp only [Option.bind_eq_bind, Option.some_bind, Option.some.injEq]
      have e1 : a / 4 * 4 + a % 4 * 16 / 16 = a := by omega
      rw [e1]
      rfl
  | case4 => rfl

theorem rawStdEncode_length (bs : Bytes) :
    (rawStdEncode bs).length = (4 * bs.length + 2) / 3 := by
  induction bs using rawStdEncode.induct with
  | case1 a b c rest ih => rw [rawStdEncode]; simp [ih]; omega
  | case2 a b => rw [rawStdEncode]; simp
  | case3 a => rw [rawStdEncode]; simp
  | case4 => rfl

theorem stdPadEncode_length (bs : Bytes) :
    (stdPadEncode bs).length = 4 * ((bs.length + 2) / 3) := by
  induction bs using stdPadEncode.induct with
  | case1 a b c rest ih => rw [stdPadEncode]; simp [ih]; omega
  | case2 a b => rw [stdPadEncode]; simp
  | case3 a => rw [stdPadEncode]; simp
  | case4 => rfl

/-! ## JSON round-trip lemmas -/

theorem natToDec_digits : ∀ n, ∀ b ∈ natToDec n, 48 ≤ b ∧ b ≤ 57 := by
  intro n
  induction n using natToDec.induct with
  | case1 n hn => rw [natToDec]; simp [hn]; omega
  | case2 n hn ih =>
      rw [natToDec]
      simp only [hn, if_false, List.mem_append, List.mem_singleton]
      rintro b (hb | rfl)
      · exact ih b hb
      · omega

theorem natToDec_ne_nil (n : Nat) : natToDec n ≠ [] := by
  rw [natToDec]
  split <;> simp

/-- Powers of ten matching the digit count of `n`. -/
def tenPow (n : Nat) : Nat := if n < 10 then 10 else tenPow (n / 10) * 10
decreasing_by exact Nat.div_lt_self (by omega) (by omega)

theorem parseDigitsAux_natToDec (n : Nat) : ∀ acc rest,
    parseDigitsAux acc (natToDec n ++ rest) =
      parseDigitsAux (acc * tenPow n + n) rest := by
  induction n using natToDec.induct with
  | case1 n hn =>
      intro acc rest
      rw [natToDec, if_pos hn, tenPow, if_pos hn]
      rw [List.cons_append, List.nil_append, parseDigitsAux]
      rw [if_pos (show 48 ≤ 48 + n ∧ 48 + n ≤ 57 by omega)]
      have he : 48 + n - 48 = n := by omega
      rw [he]
  | case2 n hn ih =>
      intro acc rest
      rw [natToDec, if_neg hn, tenPow, if_neg hn]
      rw [List.append_assoc, List.cons_append, List.nil_append, ih]
      rw [parseDigitsAux]
      rw [if_pos (show 48 ≤ 48 + n % 10 ∧ 48 + n % 10 ≤ 57 by omega)]
      have he : (acc * tenPow (n / 10) + n / 10) * 10 + (48 + n % 10 - 48) =
          acc * (tenPow (n / 10) * 10) + n := by
        have h10 : n / 10 * 10 + n % 10 = n := by omega
        have h48 : 48 + n % 10 - 48 = n % 10 := by omega
        rw [h48, Nat.add_mul, Nat.mul_assoc, Nat.add_assoc, h10]
      rw [he]

/-- The head of `rest` is not a decimal digit. -/
def NonDigitHead : Bytes → Prop
  | [] => True
  | b :: _ => ¬(48 ≤ b ∧ b ≤ 57)

instance (bs : Bytes) : Decidable (NonDigitHead bs) := by
  unfold NonDigitHead; split <;> infer_instance

theorem parseDigitsAux_stop (v : Nat) {rest : Bytes} (h : NonDigitHead rest) :
    parseDigitsAux v rest = (v, rest) := by
  match rest with
  | [] => rfl
  | b :: tl =>
      rw [parseDigitsAux]
      simp only [NonDigitHead] at h
      simp [h]

theorem parseDigits_natToDec (n : Nat) {rest : Bytes} (h : NonDigitHead rest) :
    parseDigitsAux 0 (natToDec n ++ rest) = (n, rest) := by
  rw [parseDigitsAux_natToDec, Nat.zero_mul, Nat.zero_add,
    parseDigitsAux_stop _ h]

theorem natToDec_head_digit (n : Nat) :
    ∃ d tl, natToDec n = d :: tl ∧ 48 ≤ d ∧ d ≤ 57 := by
  match hd : natToDec n with
  | [] => exact absurd hd (natToDec_ne_nil n)
  | d :: tl =>
      refine ⟨d, tl, rfl, ?_⟩
      have := natToDec_digits n d (by rw [hd]; simp)
      exact this


theorem parseJInt_intBytes {v : Int} (h : Int64Range v) {rest : Bytes}
    (hr : NonDigitHead rest) : parseJInt (intBytes v ++ rest) = some (v, rest) := by
  obtain ⟨h1, h2⟩ := h
  by_cases hv : v < 0
  · rw [intBytes, if_pos hv]
    obtain ⟨d, tl, hd, hd1, hd2⟩ := natToDec_head_digit (-v).toNat
    rw [List.cons_append, hd, List.cons_append, parseJInt]
    rw [if_pos (show 48 ≤ d ∧ d ≤ 57 from ⟨hd1, hd2⟩)]
    rw [show d :: (tl ++ rest) = (d :: tl) ++ rest from by simp, ← hd,
      parseDigits_natToDec _ hr]
    simp only
    rw [if_pos (show (-v).toNat ≤ 2 ^ 63 by omega)]
    have he : -(((-v).toNat : Int)) = v := by omega
    rw [he]
  · rw [intBytes, if_neg hv]
    obtain ⟨d, tl, hd, hd1, hd2⟩ := natToDec_head_digit v.toNat
    rw [hd, List.cons_append, parseJInt.eq_def]
    split
    · rename_i b r heq
      have : d = 45 := by injection heq
      omega
    · rename_i b r heq
      injection heq with hb hrr
      subst hb
      subst hrr
      rw [if_pos (show 48 ≤ d ∧ d ≤ 57 from ⟨hd1, hd2⟩)]
      rw [show d :: (tl ++ rest) = (d :: tl) ++ rest from by simp, ← hd,
        parseDigits_natToDec _ hr]
      simp only
      rw [if_pos (show v.toNat ≤ 2 ^ 63 - 1 by omega)]
      have he : ((v.toNat : Int)) = v := by omega
      rw [he]
    · rename_i heq
      exact absurd heq (by simp)

theorem hexVal_hexCh : ∀ n, n < 16 → hexVal (hexCh n) = some n := by decide

theorem escapeBytes_cons (b : Nat) (bs : Bytes) :
    escapeBytes (b :: bs) = escByte b ++ escapeBytes bs := by
  simp [escapeBytes]

theorem parseStrAux_escape (s : Bytes) (rest : Bytes) :
    parseStrAux (escapeBytes s ++ 34 :: rest) = some (s, rest) := by
  induction s with
  | nil => simp [escapeBytes, parseStrAux]
  | cons b bs ih =>
      rw [escapeBytes_cons, List.append_assoc]
      by_cases h34 : b = 34
      · subst h34
        rw [show escByte 34 = [92, 34] from rfl]
        rw [List.cons_append, List.cons_append, List.nil_append, parseStrAux]
        case _ => simp [unescSimple, ih]
        all_goals intros
        all_goals omega
      · by_cases h92 : b = 92
        · subst h92
          rw [show escByte 92 = [92, 92] from rfl]
          rw [List.cons_append, List.cons_append, List.nil_append, parseStrAux]
          case _ => simp [unescSimple, ih]
          all_goals intros
          all_goals omega
        · by_cases h10 : b = 10
          · subst h10
            rw [show escByte 10 = [92, 110] from rfl]
            rw [List.cons_append, List.cons_append, List.nil_append, parseStrAux]
            case _ => simp [unescSimple, ih]
            all_goals intros
            all_goals omega
          · by_cases h13 : b = 13
            · subst h13
              rw [show escByte 13 = [92, 114] from rfl]
              rw [List.cons_append, List.cons_append, List.nil_append,
                parseStrAux]
              case _ => simp [unescSimple, ih]
              all_goals intros
              all_goals omega
            · by_cases h9 : b = 9
              · subst h9
                rw [show escByte 9 = [92, 116] from rfl]
                rw [List.cons_append, List.cons_append, List.nil_append,
                  parseStrAux]
                case _ => simp [unescSimple, ih]
                all_goals intros
                all_goals omega
              · by_cases hu : b < 32 ∨ b = 60 ∨ b = 62 ∨ b = 38
                · rw [escByte, if_neg h34, if_neg h92, if_neg h10, if_neg h13,
                    if_neg h9, if_pos hu]
                  rw [List.cons_append, List.cons_append, List.cons_append,
                    List.cons_append, List.cons_append, List.cons_append,
                    List.nil_append]
                  rw [parseStrAux]
                  have hb : b < 64 := by omega
                  rw [show hexVal 48 = some 0 from rfl]
                  rw [show hexCh (b / 16) = hexCh (b / 16) from rfl,
                    hexVal_hexCh (b / 16) (by omega),
                    hexVal_hexCh (b % 16) (by omega)]
                  simp only [Option.bind_eq_bind, Option.some_bind]
                  rw [ih]
                  have he : 0 * 4096 + 0 * 256 + b / 16 * 16 + b % 16 = b := by
                    omega
                  rw [he, utf8enc, if_pos (show b < 128 by omega)]
                  simp
                · rw [escByte, if_neg h34, if_neg h92, if_neg h10, if_neg h13,
                    if_neg h9, if_neg hu]
                  rw [List.cons_append, List.nil_append, parseStrAux.eq_def]
                  split <;> simp_all

theorem marshalString_shape (s : Bytes) (r : Bytes) :
    marshalString s ++ r = 34 :: (escapeBytes s ++ 34 :: r) := by
  simp [marshalString]

theorem arrLoop_marshal (l : List Bytes) :
    ∀ fuel, l.length ≤ fuel → l ≠ [] → ∀ rest,
      arrLoop fuel (marshalStrArrBody l ++ 93 :: rest) = some (l, rest) := by
  induction l with
  | nil => intro fuel _ hne; exact absurd rfl hne
  | cons s tl ih =>
      intro fuel hf _ rest
      match fuel, hf with
      | fuel + 1, hf =>
          match tl with
          | [] =>
              rw [show marshalStrArrBody [s] = marshalString s from rfl]
              rw [marshalString_shape, arrLoop]
              rw [parseStrAux_escape]
              simp
          | t :: ts =>
              rw [show marshalStrArrBody (s :: t :: ts) =
                marshalString s ++ [44] ++ marshalStrArrBody (t :: ts) from rfl]
              rw [List.append_assoc, List.append_assoc, marshalString_shape,
                arrLoop]
              rw [show [44] ++ (marshalStrArrBody (t :: ts) ++ 93 :: rest) =
                44 :: (marshalStrArrBody (t :: ts) ++ 93 :: rest) from rfl]
              rw [parseStrAux_escape]
              simp only [Option.bind_eq_bind, Option.some_bind]
              rw [ih fuel (by simpa using hf) (by simp) rest]
              simp

theorem marshalString_length_ge (s : Bytes) : 2 ≤ (marshalString s).length := by
  simp [marshalString]

theorem marshalStrArrBody_length_ge (l : List Bytes) :
    l.length ≤ (marshalStrArrBody l).length := by
  induction l with
  | nil => simp [marshalStrArrBody]
  | cons s tl ih =>
      match tl with
      | [] =>
          rw [show marshalStrArrBody [s] = marshalString s from rfl]
          have := marshalString_length_ge s
          simp
          omega
      | t :: ts =>
          rw [show marshalStrArrBody (s :: t :: ts) =
            marshalString s ++ [44] ++ marshalStrArrBody (t :: ts) from rfl]
          have := marshalString_length_ge s
          simp at ih ⊢
          omega

theorem marshalStrArrBody_cons_head (s : Bytes) (tl : List Bytes) :
    ∃ Y, marshalStrArrBody (s :: tl) = 34 :: Y := by
  match tl with
  | [] => exact ⟨escapeBytes s ++ [34], by simp [marshalStrArrBody, marshalString]⟩
  | t :: ts =>
      refine ⟨escapeBytes s ++ [34] ++ [44] ++ marshalStrArrBody (t :: ts), ?_⟩
      rw [show marshalStrArrBody (s :: t :: ts) =
        marshalString s ++ [44] ++ marshalStrArrBody (t :: ts) from rfl]
      simp [marshalString]

theorem parseJStrArray_marshal (l : List Bytes) (rest : Bytes) :
    parseJStrArray (marshalStrArr l ++ rest) = some (l, rest) := by
  match l with
  | [] => rfl
  | s :: tl =>
      obtain ⟨Y, hY⟩ := marshalStrArrBody_cons_head s tl
      have hshape : marshalStrArr (s :: tl) ++ rest =
          91 :: (marshalStrArrBody (s :: tl) ++ 93 :: rest) := by
        simp [marshalStrArr]
      rw [hshape, hY, List.cons_append, parseJStrArray.eq_def]
      split
      · rename_i heq
        simp at heq
      · rename_i r1 heq
        injection heq with h91 hr1
        subst hr1
        rw [← List.cons_append, ← hY]
        have hlen : (s :: tl).length ≤
            (marshalStrArrBody (s :: tl) ++ 93 :: rest).length + 1 := by
          have := marshalStrArrBody_length_ge (s :: tl)
          simp only [List.length_append, List.length_cons] at this ⊢
          omega
        exact arrLoop_marshal (s :: tl) _ hlen (by simp) rest
      · rename_i hne1 hne2
        exact (hne2 _ rfl).elim

theorem parseJStringLit_marshal (s : Bytes) (X : Bytes) :
    parseJStringLit (marshalString s ++ X) = some (s, X) := by
  rw [marshalString_shape, parseJStringLit, parseStrAux_escape]

theorem assignField_aud (l : List Bytes) (X : Bytes) (acc : Claims) :
    assignField (strBytes "aud") (marshalStrArr l ++ X) acc =
      some ({acc with aud := l}, X) := by
  rw [assignField, if_pos rfl]
  rw [if_neg (by simp [marshalStrArr, strBytes])]
  rw [parseJStrArray_marshal]
  rfl

theorem assignField_exp (v : Int) (X : Bytes) (acc : Claims)
    (hv : Int64Range v) (hX : NonDigitHead X) :
    assignField (strBytes "exp") (intBytes v ++ X) acc =
      some ({acc with exp := v}, X) := by
  rw [assignField, if_neg (by decide), if_pos rfl, parseJInt_intBytes hv hX]
  rfl

theorem assignField_iat (v : Int) (X : Bytes) (acc : Claims)
    (hv : Int64Range v) (hX : NonDigitHead X) :
    assignField (strBytes "iat") (intBytes v ++ X) acc =
      some ({acc with iat := v}, X) := by
  rw [assignField, if_neg (by decide), if_neg (by decide), if_pos rfl,
    parseJInt_intBytes hv hX]
  rfl

theorem assignField_iss (s : Bytes) (X : Bytes) (acc : Claims) :
    assignField (strBytes "iss") (marshalString s ++ X) acc =
      some ({acc with iss := s}, X) := by
  rw [assignField, if_neg (by decide), if_neg (by decide), if_neg (by decide),
    if_pos rfl, parseJStringLit_marshal]
  rfl

theorem intBytes_head_not_110 (v : Int) (X : Bytes) :
    (intBytes v ++ X).take 4 ≠ strBytes "null" := by
  intro hcontra
  have hhd : ((intBytes v ++ X).take 4).head? = some 110 := by
    rw [hcontra]; rfl
  obtain ⟨d, tl, hd, hd1, hd2⟩ := natToDec_head_digit v.toNat
  obtain ⟨d2, tl2, hd3, hd4, hd5⟩ := natToDec_head_digit (-v).toNat
  rw [intBytes] at hhd
  by_cases hvn : v < 0
  · rw [if_pos hvn] at hhd
    simp at hhd
  · rw [if_neg hvn, hd] at hhd
    simp at hhd
    omega

theorem assignField_nbf (v : Int) (X : Bytes) (acc : Claims)
    (hv : Int64Range v) (hX : NonDigitHead X) :
    assignField (strBytes "nbf") (intBytes v ++ X) acc =
      some ({acc with nbf := some v}, X) := by
  rw [assignField, if_neg (by decide), if_neg (by decide), if_neg (by decide),
    if_neg (by decide), if_pos rfl, if_neg (intBytes_head_not_110 v X),
    parseJInt_intBytes hv hX]
  rfl

theorem assignField_sub (s : Bytes) (X : Bytes) (acc : Claims) :
    assignField (strBytes "sub") (marshalString s ++ X) acc =
      some ({acc with sub := s}, X) := by
  rw [assignField, if_neg (by decide), if_neg (by decide), if_neg (by decide),
    if_neg (by decide), if_neg (by decide), if_pos rfl,
    parseJStringLit_marshal]
  rfl

theorem claimsLoop_step_cont (fuel : Nat) (k v more : Bytes)
    (acc acc2 : Claims) (hkesc : escapeBytes k = k)
    (hv : assignField k (v ++ 44 :: more) acc = some (acc2, 44 :: more)) :
    claimsLoop (fuel + 1) ((34 :: (k ++ [34, 58] ++ v)) ++ 44 :: more) acc =
      claimsLoop fuel more acc2 := by
  rw [List.cons_append, claimsLoop]
  have hR : (k ++ [34, 58] ++ v) ++ 44 :: more =
      escapeBytes k ++ 34 :: (58 :: (v ++ 44 :: more)) := by
    rw [hkesc]; simp
  rw [hR, parseStrAux_escape]
  simp only [Option.bind_eq_bind, Option.some_bind]
  rw [hv]
  simp

theorem claimsLoop_step_last (fuel : Nat) (k v r4 : Bytes)
    (acc acc2 : Claims) (hkesc : escapeBytes k = k)
    (hv : assignField k (v ++ 125 :: r4) acc = some (acc2, 125 :: r4)) :
    claimsLoop (fuel + 1) ((34 :: (k ++ [34, 58] ++ v)) ++ 125 :: r4) acc =
      some (acc2, r4) := by
  rw [List.cons_append, claimsLoop]
  have hR : (k ++ [34, 58] ++ v) ++ 125 :: r4 =
      escapeBytes k ++ 34 :: (58 :: (v ++ 125 :: r4)) := by
    rw [hkesc]; simp
  rw [hR, parseStrAux_escape]
  simp only [Option.bind_eq_bind, Option.some_bind]
  rw [hv]
  simp

/-- Literal byte forms of the six field prefixes. -/
theorem strBytes_aud_key : strBytes "\"aud\":" = 34 :: (strBytes "aud" ++ [34, 58]) := by decide

theorem strBytes_exp_key : strBytes "\"exp\":" = 34 :: (strBytes "exp" ++ [34, 58]) := by decide

theorem strBytes_iat_key : strBytes "\"iat\":" = 34 :: (strBytes "iat" ++ [34, 58]) := by decide

theorem strBytes_iss_key : strBytes "\"iss\":" = 34 :: (strBytes "iss" ++ [34, 58]) := by decide

theorem strBytes_nbf_key : strBytes "\"nbf\":" = 34 :: (strBytes "nbf" ++ [34, 58]) := by decide

theorem strBytes_sub_key : strBytes "\"sub\":" = 34 :: (strBytes "sub" ++ [34, 58]) := by decide

/-- `json.Unmarshal` inverts `json.Marshal` on any `Claims` value whose
numeric fields are `int64` values. -/
theorem parseClaims_marshal (c : Claims)
    (hexp : Int64Range c.exp) (hiat : Int64Range c.iat)
    (hnbf : ∀ v, c.nbf = some v → Int64Range v) :
    parseClaims (marshalClaims c) = some c := by
  obtain ⟨aud, exp, iat, iss, nbf, sub⟩ := c
  simp only at hexp hiat hnbf
  match nbf with
  | some nv =>
      have hnv : Int64Range nv := hnbf nv rfl
      have hshape : marshalClaims ⟨aud, exp, iat, iss, some nv, sub⟩ =
          123 :: ((34 :: (strBytes "aud" ++ [34, 58] ++ marshalStrArr aud)) ++
          44 :: ((34 :: (strBytes "exp" ++ [34, 58] ++ intBytes exp)) ++
          44 :: ((34 :: (strBytes "iat" ++ [34, 58] ++ intBytes iat)) ++
          44 :: ((34 :: (strBytes "iss" ++ [34, 58] ++ marshalString iss)) ++
          44 :: ((34 :: (strBytes "nbf" ++ [34, 58] ++ intBytes nv)) ++
          44 :: ((34 :: (strBytes "sub" ++ [34, 58] ++ marshalString sub)) ++
          125 :: [])))))) := by
        rw [marshalClaims]
        simp only [strBytes_aud_key, strBytes_exp_key, strBytes_iat_key,
          strBytes_iss_key, strBytes_nbf_key, strBytes_sub_key]
        simp [List.append_assoc]
      rw [hshape, parseClaims]
      rw [if_neg (by simp)]
      have hlen : ∃ m, (123 :: ((34 :: (strBytes "aud" ++ [34, 58] ++
          marshalStrArr aud)) ++
          44 :: ((34 :: (strBytes "exp" ++ [34, 58] ++ intBytes exp)) ++
          44 :: ((34 :: (strBytes "iat" ++ [34, 58] ++ intBytes iat)) ++
          44 :: ((34 :: (strBytes "iss" ++ [34, 58] ++ marshalString iss)) ++
          44 :: ((34 :: (strBytes "nbf" ++ [34, 58] ++ intBytes nv)) ++
          44 :: ((34 :: (strBytes "sub" ++ [34, 58] ++ marshalString sub)) ++
          125 :: []))))))).length = m + 6 := by
        refine ⟨(List.length (strBytes "aud" ++ [34, 58] ++ marshalStrArr aud))
          + (List.length (strBytes "exp" ++ [34, 58] ++ intBytes exp))
          + (List.length (strBytes "iat" ++ [34, 58] ++ intBytes iat))
          + (List.length (strBytes "iss" ++ [34, 58] ++ marshalString iss))
          + (List.length (strBytes "nbf" ++ [34, 58] ++ intBytes nv))
          + (List.length (strBytes "sub" ++ [34, 58] ++ marshalString sub))
          + 7, ?_⟩
        simp only [List.length_cons, List.length_append, List.length_nil]
        omega
      obtain ⟨m, hm⟩ := hlen
      rw [hm]
      rw [show m + 6 = (m + 5) + 1 by omega,
        claimsLoop_step_cont _ _ _ _ _ _ (by decide)
          (assignField_aud aud _ zeroClaims)]
      rw [show m + 5 = (m + 4) + 1 by omega,
        claimsLoop_step_cont _ _ _ _ _ _ (by decide)
          (assignField_exp exp _ _ hexp (by simp [NonDigitHead]))]
      rw [show m + 4 = (m + 3) + 1 by omega,
        claimsLoop_step_cont _ _ _ _ _ _ (by decide)
          (assignField_iat iat _ _ hiat (by simp [NonDigitHead]))]
      rw [show m + 3 = (m + 2) + 1 by omega,
        claimsLoop_step_cont _ _ _ _ _ _ (by decide)
          (assignField_iss iss _ _)]
      rw [show m + 2 = (m + 1) + 1 by omega,
        claimsLoop_step_cont _ _ _ _ _ _ (by decide)
          (assignField_nbf nv _ _ hnv (by simp [NonDigitHead]))]
      rw [show m + 1 = m + 1 by omega,
        claimsLoop_step_last _ _ _ _ _ _ (by decide)
          (assignField_sub sub _ _)]
  | none =>
      have hshape : marshalClaims ⟨aud, exp, iat, iss, none, sub⟩ =
          123 :: ((34 :: (strBytes "aud" ++ [34, 58] ++ marshalStrArr aud)) ++
          44 :: ((34 :: (strBytes "exp" ++ [34, 58] ++ intBytes exp)) ++
          44 :: ((34 :: (strBytes "iat" ++ [34, 58] ++ intBytes iat)) ++
          44 :: ((34 :: (strBytes "iss" ++ [34, 58] ++ marshalString iss)) ++
          44 :: ((34 :: (strBytes "sub" ++ [34, 58] ++ marshalString sub)) ++
          125 :: []))))) := by
        rw [marshalClaims]
        simp only [strBytes_aud_key, strBytes_exp_key, strBytes_iat_key,
          strBytes_iss_key, strBytes_sub_key]
        simp [List.append_assoc]
      rw [hshape, parseClaims]
      rw [if_neg (by simp)]
      have hlen : ∃ m, (123 :: ((34 :: (strBytes "aud" ++ [34, 58] ++
          marshalStrArr aud)) ++
          44 :: ((34 :: (strBytes "exp" ++ [34, 58] ++ intBytes exp)) ++
          44 :: ((34 :: (strBytes "iat" ++ [34, 58] ++ intBytes iat)) ++
          44 :: ((34 :: (strBytes "iss" ++ [34, 58] ++ marshalString iss)) ++
          44 :: ((34 :: (strBytes "sub" ++ [34, 58] ++ marshalString sub)) ++
          125 :: [])))))).length = m + 5 := by
        refine ⟨(List.length (strBytes "aud" ++ [34, 58] ++ marshalStrArr aud))
          + (List.length (strBytes "exp" ++ [34, 58] ++ intBytes exp))
          + (List.length (strBytes "iat" ++ [34, 58] ++ intBytes iat))
          + (List.length (strBytes "iss" ++ [34, 58] ++ marshalString iss))
          + (List.length (strBytes "sub" ++ [34, 58] ++ marshalString sub))
          + 6, ?_⟩
        simp only [List.length_cons, List.length_append, List.length_nil]
        omega
      obtain ⟨m, hm⟩ := hlen
      rw [hm]
      rw [show m + 5 = (m + 4) + 1 by omega,
        claimsLoop_step_cont _ _ _ _ _ _ (by decide)
          (assignField_aud aud _ zeroClaims)]
      rw [show m + 4 = (m + 3) + 1 by omega,
        claimsLoop_step_cont _ _ _ _ _ _ (by decide)
          (assignField_exp exp _ _ hexp (by simp [NonDigitHead]))]
      rw [show m + 3 = (m + 2) + 1 by omega,
        claimsLoop_step_cont _ _ _ _ _ _ (by decide)
          (assignField_iat iat _ _ hiat (by simp [NonDigitHead]))]
      rw [show m + 2 = (m + 1) + 1 by omega,
        claimsLoop_step_cont _ _ _ _ _ _ (by decide)
          (assignField_iss iss _ _)]
      rw [show m + 1 = m + 1 by omega,
        claimsLoop_step_last _ _ _ _ _ _ (by decide)
          (assignField_sub sub _ _)]
      simp [zeroClaims]

/-! ## Byte-range lemmas for marshalled output -/

theorem byteOk_append {a b : Bytes} (ha : ByteOk a) (hb : ByteOk b) :
    ByteOk (a ++ b) := by
  intro x hx
  rcases List.mem_append.1 hx with h | h
  · exact ha x h
  · exact hb x h

theorem byteOk_cons {b : Nat} {t : Bytes} (hb : b < 256) (ht : ByteOk t) :
    ByteOk (b :: t) := by
  intro x hx
  rcases List.mem_cons.1 hx with rfl | h
  · exact hb
  · exact ht x h

theorem byteOk_singleton {n : Nat} (h : n < 256) : ByteOk [n] := by
  intro x hx
  simp at hx
  omega

theorem byteOk_append_iff (a b : Bytes) :
    ByteOk (a ++ b) ↔ ByteOk a ∧ ByteOk b := by
  unfold ByteOk
  simp only [List.mem_append, or_imp, forall_and]

theorem escByte_byteOk {b : Nat} (h : b < 256) : ByteOk (escByte b) := by
  have hhex1 : hexCh (b / 16) < 256 := by rw [hexCh]; split <;> omega
  have hhex2 : hexCh (b % 16) < 256 := by rw [hexCh]; split <;> omega
  intro x hx
  rw [escByte] at hx
  split_ifs at hx
  · simp at hx; rcases hx with rfl | rfl <;> omega
  · simp at hx; rcases hx with rfl | rfl <;> omega
  · simp at hx; rcases hx with rfl | rfl <;> omega
  · simp at hx; rcases hx with rfl | rfl <;> omega
  · simp at hx; rcases hx with rfl | rfl <;> omega
  · simp at hx
    rcases hx with rfl | rfl | rfl | rfl | rfl
    · omega
    · omega
    · omega
    · exact hhex1
    · exact hhex2
  · simp at hx; omega

theorem escapeBytes_byteOk {s : Bytes} (h : ByteOk s) :
    ByteOk (escapeBytes s) := by
  intro x hx
  rw [escapeBytes] at hx
  simp only [List.mem_flatten, List.mem_map] at hx
  obtain ⟨l, ⟨b, hb, rfl⟩, hx⟩ := hx
  exact escByte_byteOk (h b hb) x hx

theorem marshalString_byteOk {s : Bytes} (h : ByteOk s) :
    ByteOk (marshalString s) :=
  byteOk_cons (by omega) (byteOk_append (escapeBytes_byteOk h)
    (by intro x hx; simp at hx; omega))

theorem natToDec_byteOk (n : Nat) : ByteOk (natToDec n) := by
  intro x hx
  have := natToDec_digits n x hx
  omega

theorem intBytes_byteOk (v : Int) : ByteOk (intBytes v) := by
  rw [intBytes]
  split
  · exact byteOk_cons (by omega) (natToDec_byteOk _)
  · exact natToDec_byteOk _

theorem marshalStrArrBody_byteOk {l : List Bytes} (h : ∀ s ∈ l, ByteOk s) :
    ByteOk (marshalStrArrBody l) := by
  induction l with
  | nil => intro x hx; simp [marshalStrArrBody] at hx
  | cons s tl ih =>
      match tl with
      | [] =>
          rw [show marshalStrArrBody [s] = marshalString s from rfl]
          exact marshalString_byteOk (h s (by simp))
      | t :: ts =>
          rw [show marshalStrArrBody (s :: t :: ts) =
            marshalString s ++ [44] ++ marshalStrArrBody (t :: ts) from rfl]
          refine byteOk_append (byteOk_append
            (marshalString_byteOk (h s (by simp))) ?_) ?_
          · intro x hx; simp at hx; omega
          · exact ih (fun u hu => h u (by simp [hu]))

theorem marshalStrArr_byteOk {l : List Bytes} (h : ∀ s ∈ l, ByteOk s) :
    ByteOk (marshalStrArr l) := by
  rw [marshalStrArr]
  refine byteOk_append (byteOk_append ?_ (marshalStrArrBody_byteOk h)) ?_
  · intro x hx; simp at hx; omega
  · intro x hx; simp at hx; omega

/-- The byte-string fields of a claims record are byte values. -/
def ClaimsBytesOk (c : Claims) : Prop :=
  (∀ s ∈ c.aud, ByteOk s) ∧ ByteOk c.iss ∧ ByteOk c.sub

instance (c : Claims) : Decidable (ClaimsBytesOk c) := by
  unfold ClaimsBytesOk; infer_instance

theorem marshalClaims_byteOk {c : Claims} (h : ClaimsBytesOk c) :
    ByteOk (marshalClaims c) := by
  obtain ⟨caud, cexp, ciat, ciss, cnbf, csub⟩ := c
  obtain ⟨haud, hiss, hsub⟩ := h
  simp only at haud hiss hsub
  have hlit : ∀ s : String, (∀ ch ∈ s.data, ch.toNat < 256) →
      ByteOk (strBytes s) := by
    intro s hs x hx
    rw [strBytes] at hx
    simp only [List.mem_map] at hx
    obtain ⟨ch, hc, rfl⟩ := hx
    exact hs ch hc
  rw [marshalClaims]
  cases cnbf with
  | some v =>
      simp only [byteOk_append_iff, and_assoc]
      exact ⟨byteOk_singleton (by omega), hlit _ (by decide),
        marshalStrArr_byteOk haud,
        byteOk_singleton (by omega), hlit _ (by decide), intBytes_byteOk _,
        byteOk_singleton (by omega), hlit _ (by decide), intBytes_byteOk _,
        byteOk_singleton (by omega), hlit _ (by decide),
        marshalString_byteOk hiss,
        byteOk_singleton (by omega), hlit _ (by decide), intBytes_byteOk _,
        byteOk_singleton (by omega), hlit _ (by decide),
        marshalString_byteOk hsub,
        byteOk_singleton (by omega)⟩
  | none =>
      simp only [byteOk_append_iff, and_assoc, List.nil_append,
        List.append_nil]
      exact ⟨byteOk_singleton (by omega), hlit _ (by decide),
        marshalStrArr_byteOk haud,
        byteOk_singleton (by omega), hlit _ (by decide), intBytes_byteOk _,
        byteOk_singleton (by omega), hlit _ (by decide), intBytes_byteOk _,
        byteOk_singleton (by omega), hlit _ (by decide),
        marshalString_byteOk hiss,
        byteOk_singleton (by omega), hlit _ (by decide),
        marshalString_byteOk hsub,
        byteOk_singleton (by omega)⟩

/-! ## Pipeline lemmas: decoding a well-formed token -/

theorem marshalHeader_default_byteOk : ByteOk (marshalHeader DefaultHeader) := by
  decide

theorem rawStdDecode_defaultHeader :
    rawStdDecode DefaultHeaderBase64 = some (marshalHeader DefaultHeader) :=
  rawStdDecode_encode marshalHeader_default_byteOk

theorem parseHeader_default :
    parseHeader (marshalHeader DefaultHeader) = some DefaultHeader := by
  decide

theorem no_dot_defaultHeaderBase64 : 46 ∉ DefaultHeaderBase64 :=
  rawStdEncode_no_dot _

/-- All integer fields of a claims record are `int64` values. -/
def ClaimsIntsOk (c : Claims) : Prop :=
  Int64Range c.exp ∧ Int64Range c.iat ∧ ∀ v, c.nbf = some v → Int64Range v

theorem unmarshal_pipeline (c : Claims) (hb : ClaimsBytesOk c)
    (hi : ClaimsIntsOk c) :
    decodeFromBase64 (some (rawStdEncode (marshalClaims c))) none =
      (some (marshalClaims c), none) ∧
    unmarshalClaims (some (marshalClaims c)) none = (some c, none) := by
  obtain ⟨hexp, hiat, hnbf⟩ := hi
  constructor
  · rw [decodeFromBase64, rawStdDecode_encode (marshalClaims_byteOk hb)]
  · rw [unmarshalClaims, parseClaims_marshal c hexp hiat hnbf]

/-- `jwts.parseTokenDetails` decodes a well-formed token's chunks to the
default header and the embedded claims, whatever the signature chunk is. -/
theorem parseTokenDetails_wellFormed (c : Claims) (sig : Bytes)
    (hb : ClaimsBytesOk c) (hi : ClaimsIntsOk c) :
    Jwts.parseTokenDetails
      (some ⟨DefaultHeaderBase64, rawStdEncode (marshalClaims c), sig⟩) none =
      .ok (some ⟨DefaultHeader, c⟩, none) := by
  obtain ⟨hd, hu⟩ := unmarshal_pipeline c hb hi
  rw [Jwts.parseTokenDetails]
  simp only
  rw [show decodeFromBase64 (some DefaultHeaderBase64) none =
    (some (marshalHeader DefaultHeader), none) from by
      rw [decodeFromBase64, rawStdDecode_defaultHeader]]
  rw [show unmarshalHeader (some (marshalHeader DefaultHeader)) none =
    (some DefaultHeader, none) from by
      rw [unmarshalHeader, parseHeader_default]]
  simp only
  rw [hd]
  simp only
  rw [hu]
  simp only [goDeref]

/-- The boolean/error verdict of `jwts.VerifyToken` on decoded claims. -/
def jwtsVerdict (c : Claims) (x : Option Bytes) (now : Int) :
    Bool × Option Err :=
  if (Jwts.findAudChunk c.aud x none).1 = false then (false, none)
  else if 0 < i64sub c.iat now then (false, none)
  else if Jwts.nbfRejects c.nbf now then (false, none)
  else if 0 < i64sub c.exp now then (true, none)
  else (false, none)

theorem findAudChunk_err_none (aud : List Bytes) (x : Option Bytes) :
    (Jwts.findAudChunk aud x none).2 = none := by
  cases x <;> rfl

/-- `jwts.VerifyToken` on a well-formed three-chunk token reduces to the
record-level verdict on the embedded claims. -/
theorem VerifyToken_wellFormed (c : Claims) (sig : Bytes) (x : Option Bytes)
    (now : Int) (hsig : 46 ∉ sig) (hb : ClaimsBytesOk c)
    (hi : ClaimsIntsOk c) :
    Jwts.VerifyToken
      (some (DefaultHeaderBase64 ++ 46 ::
        (rawStdEncode (marshalClaims c) ++ 46 :: sig))) x none now =
      .ok (jwtsVerdict c x now) := by
  rw [Jwts.VerifyToken]
  have hchunks : Jwts.parseTokenChunks
      (some (DefaultHeaderBase64 ++ 46 ::
        (rawStdEncode (marshalClaims c) ++ 46 :: sig))) none =
      (some ⟨DefaultHeaderBase64, rawStdEncode (marshalClaims c), sig⟩,
        none) := by
    rw [Jwts.parseTokenChunks]
    rw [splitOnDot_three no_dot_defaultHeaderBase64
      (rawStdEncode_no_dot _) hsig]
  rw [hchunks]
  simp only
  rw [parseTokenDetails_wellFormed c sig hb hi]
  simp only [goDeref]
  rw [jwtsVerdict]
  by_cases hfound : (Jwts.findAudChunk c.aud x none).1 = false
  · rw [if_pos hfound, if_pos hfound]
    rw [findAudChunk_err_none]
  · rw [if_neg hfound, if_neg hfound]
    rw [findAudChunk_err_none]
    simp only [Jwts.validateTokenTimes.eq_def, goDeref]
    repeat' (split <;> simp_all)

/-- The boolean/error verdict of `jwtx.ValidateTokenByWindowAndAud` on
decoded claims. -/
def jwtxVerdict (c : Claims) (x : Bytes) (now : Int) : Bool × Option Err :=
  if Jwtx.findAudChunk c.aud x = false then (false, some .audChunkNotFound)
  else if 0 < i64sub c.iat now then (false, some .tokenIssuedBeforeNow)
  else if Jwts.nbfRejects c.nbf now then (false, some .tokenUsedBeforeExpected)
  else if 0 < i64sub c.exp now then (true, none)
  else (false, some .tokenIsExpired)

theorem RetrieveTokenDetails_wellFormed (c : Claims) (sig : Bytes)
    (hsig : 46 ∉ sig) (hb : ClaimsBytesOk c) (hi : ClaimsIntsOk c) :
    Jwtx.RetrieveTokenDetails
      (some (DefaultHeaderBase64 ++ 46 ::
        (rawStdEncode (marshalClaims c) ++ 46 :: sig))) none =
      .ok (some ⟨some DefaultHeader, some c⟩, none) := by
  obtain ⟨hd, hu⟩ := unmarshal_pipeline c hb hi
  rw [Jwtx.RetrieveTokenDetails]
  simp only
  have hchunks : Jwtx.retrieveTokenChunks
      (some (DefaultHeaderBase64 ++ 46 ::
        (rawStdEncode (marshalClaims c) ++ 46 :: sig))) none =
      (some ⟨DefaultHeaderBase64, rawStdEncode (marshalClaims c), sig⟩,
        none) := by
    rw [Jwtx.retrieveTokenChunks, Jwts.parseTokenChunks]
    rw [splitOnDot_three no_dot_defaultHeaderBase64
      (rawStdEncode_no_dot _) hsig]
  rw [hchunks]
  simp only [goDeref]
  rw [show decodeFromBase64 (some DefaultHeaderBase64) none =
    (some (marshalHeader DefaultHeader), none) from by
      rw [decodeFromBase64, rawStdDecode_defaultHeader]]
  rw [show unmarshalHeader (some (marshalHeader DefaultHeader)) none =
    (some DefaultHeader, none) from by
      rw [unmarshalHeader, parseHeader_default]]
  simp only
  rw [hd]
  simp only
  rw [hu]

theorem ValidateTokenByWindowAndAud_wellFormed (c : Claims) (sig : Bytes)
    (x : Bytes) (now : Int) (hsig : 46 ∉ sig) (hb : ClaimsBytesOk c)
    (hi : ClaimsIntsOk c) :
    Jwtx.ValidateTokenByWindowAndAud
      (some (DefaultHeaderBase64 ++ 46 ::
        (rawStdEncode (marshalClaims c) ++ 46 :: sig))) x none now =
      .ok (jwtxVerdict c x now) := by
  rw [Jwtx.ValidateTokenByWindowAndAud,
    RetrieveTokenDetails_wellFormed c sig hsig hb hi]
  simp only [goDeref]
  rw [jwtxVerdict]
  repeat' (split <;> simp_all)

/-! ## The shape of created tokens -/

/-- The signature chunk `jwts.CreateToken` produces. -/
def jwtsSigChunk (p : CreateTokenParams) (s : Bytes) (now : Int) : Bytes :=
  rawStdEncode (hmacSha256 s (DefaultHeaderBase64 ++ 46 ::
    rawStdEncode (marshalClaims (mkClaims p now))))

theorem CreateToken_eq (p : CreateTokenParams) (s : Bytes) (now : Int) :
    Jwts.CreateToken (some p) (some s) none now =
      (some (DefaultHeaderBase64 ++ 46 ::
        (rawStdEncode (marshalClaims (mkClaims p now)) ++ 46 ::
          jwtsSigChunk p s now)), none) := rfl

/-- The generated 128-byte secret of the `jwtx` creators. -/
def jwtxGenSecret (rand : Nat → Nat) : Bytes :=
  (List.range 128).map (fun i => rand i % 256)

/-- The signature chunk the `jwtx` creators produce (note the
`json.Marshal` of the MAC bytes inside). -/
def jwtxSigChunk (p : CreateTokenParams) (rand : Nat → Nat) (now : Int) :
    Bytes :=
  rawStdEncode (marshalByteSlice (hmacSha256 (jwtxGenSecret rand)
    (DefaultHeaderBase64 ++ 46 ::
      rawStdEncode (marshalClaims (mkClaims p now)))))

theorem CreateJWT_eq (p : CreateTokenParams) (rand : Nat → Nat) (now : Int) :
    Jwtx.CreateJWT (some p) none rand now =
      .ok (some ⟨some (DefaultHeaderBase64 ++ 46 ::
        (rawStdEncode (marshalClaims (mkClaims p now)) ++ 46 ::
          jwtxSigChunk p rand now)),
        some (jwtxGenSecret rand), some (jwtxSigChunk p rand now)⟩,
        none) := rfl

theorem CreateJWTFromSecret_eq (p : CreateTokenParams) (s : Bytes)
    (rand : Nat → Nat) (now : Int) :
    Jwtx.CreateJWTFromSecret (some p) (some s) none rand now =
      .ok (some ⟨some (DefaultHeaderBase64 ++ 46 ::
        (rawStdEncode (marshalClaims (mkClaims p now)) ++ 46 ::
          jwtxSigChunk p rand now)),
        some (jwtxGenSecret rand), some (jwtxSigChunk p rand now)⟩,
        none) := rfl

/-- The byte-string fields of the parameters are byte values. -/
def ParamsOk (p : CreateTokenParams) : Prop :=
  (∀ s ∈ p.aud, ByteOk s) ∧ ByteOk p.iss ∧ ByteOk p.sub

instance (p : CreateTokenParams) : Decidable (ParamsOk p) := by
  unfold ParamsOk; infer_instance

theorem mkClaims_bytesOk {p : CreateTokenParams} (now : Int)
    (hp : ParamsOk p) : ClaimsBytesOk (mkClaims p now) := by
  obtain ⟨h1, h2, h3⟩ := hp
  exact ⟨h1, h2, h3⟩

theorem mkClaims_intsOk (p : CreateTokenParams) {now : Int}
    (hn : Int64Range now) : ClaimsIntsOk (mkClaims p now) := by
  refine ⟨wrap64_range _, hn, ?_⟩
  intro v hv
  rw [mkClaims] at hv
  simp only [Option.some.injEq] at hv
  subst hv
  match p.delay with
  | some d => exact wrap64_range _
  | none => exact ⟨by norm_num, by norm_num⟩

/-- `jwts.VerifyToken` after `jwts.CreateToken` computes the record-level
verdict on `mkClaims p now0`. -/
theorem VerifyToken_created (p : CreateTokenParams) (s : Bytes)
    (now0 : Int) (x : Option Bytes) (now : Int)
    (hp : ParamsOk p) (h0 : Int64Range now0) :
    Jwts.VerifyToken (Jwts.CreateToken (some p) (some s) none now0).1
      x none now = .ok (jwtsVerdict (mkClaims p now0) x now) := by
  rw [CreateToken_eq]
  exact VerifyToken_wellFormed _ _ x now (rawStdEncode_no_dot _)
    (mkClaims_bytesOk now0 hp) (mkClaims_intsOk p h0)

/-- `jwtx.ValidateTokenByWindowAndAud` after `jwts.CreateToken`. -/
theorem jwtxValidate_created (p : CreateTokenParams) (s : Bytes)
    (now0 : Int) (x : Bytes) (now : Int)
    (hp : ParamsOk p) (h0 : Int64Range now0) :
    Jwtx.ValidateTokenByWindowAndAud
      (Jwts.CreateToken (some p) (some s) none now0).1 x none now =
      .ok (jwtxVerdict (mkClaims p now0) x now) := by
  rw [CreateToken_eq]
  exact ValidateTokenByWindowAndAud_wellFormed _ _ x now
    (rawStdEncode_no_dot _) (mkClaims_bytesOk now0 hp) (mkClaims_intsOk p h0)

/-- `jwtx.ValidateTokenByWindowAndAud` after `jwtx.CreateJWT`. -/
theorem jwtxValidate_createdJWT (p : CreateTokenParams) (rand : Nat → Nat)
    (now0 : Int) (x : Bytes) (now : Int)
    (hp : ParamsOk p) (h0 : Int64Range now0) :
    Jwtx.ValidateTokenByWindowAndAud
      (some (DefaultHeaderBase64 ++ 46 ::
        (rawStdEncode (marshalClaims (mkClaims p now0)) ++ 46 ::
          jwtxSigChunk p rand now0))) x none now =
      .ok (jwtxVerdict (mkClaims p now0) x now) :=
  ValidateTokenByWindowAndAud_wellFormed _ _ x now
    (rawStdEncode_no_dot _) (mkClaims_bytesOk now0 hp) (mkClaims_intsOk p h0)

theorem jwtsSigChunk_no_dot (p : CreateTokenParams) (s : Bytes) (now : Int) :
    46 ∉ jwtsSigChunk p s now := rawStdEncode_no_dot _

theorem jwtxSigChunk_no_dot (p : CreateTokenParams) (rand : Nat → Nat)
    (now : Int) : 46 ∉ jwtxSigChunk p rand now := rawStdEncode_no_dot _

/-! ## The claims -/

/-- Claim C1: for every non-nil `CreateTokenParams`, secret and clock
value, validating the token produced by `CreateToken` with the same
secret succeeds: `ValidateToken(CreateToken(params, secret), secret)`
returns `(true, nil)` — the verifier recomputes the HMAC-SHA256 over the
identical header and claims segments and the comparison holds. -/
theorem claim_C1 (p : CreateTokenParams) (s : Bytes) (now : Int) :
    Jwts.ValidateToken (Jwts.CreateToken (some p) (some s) none now).1
      (some s) none = .ok (true, none) := by
  rw [CreateToken_eq]
  rw [Jwts.ValidateToken]
  have hchunks : Jwts.parseTokenChunks
      (some (DefaultHeaderBase64 ++ 46 ::
        (rawStdEncode (marshalClaims (mkClaims p now)) ++ 46 ::
          jwtsSigChunk p s now))) none =
      (some ⟨DefaultHeaderBase64, rawStdEncode (marshalClaims (mkClaims p now)),
        jwtsSigChunk p s now⟩, none) := by
    rw [Jwts.parseTokenChunks]
    rw [splitOnDot_three no_dot_defaultHeaderBase64
      (rawStdEncode_no_dot _) (jwtsSigChunk_no_dot p s now)]
  rw [hchunks]
  simp only [Jwts.validateSignature, goDeref]
  rw [show Jwts.createSignature (some DefaultHeaderBase64)
    (some (rawStdEncode (marshalClaims (mkClaims p now)))) (some s) none =
    (some (jwtsSigChunk p s now), none) from rfl]
  simp

/-- Claim C2 (code bug): `parseTokenChunks` does reject a token with 2 or
4 dot-separated parts with `errInvalidToken`, but `VerifyToken` and
`ValidateToken` then dereference the nil chunks/details pointer while
building the next call's arguments and panic instead of returning that
error to the caller. -/
theorem claim_C2 :
    Jwts.parseTokenChunks (some (strBytes "a.b")) none =
      (none, some .invalidToken) ∧
    Jwts.parseTokenChunks (some (strBytes "a.b.c.d")) none =
      (none, some .invalidToken) ∧
    Jwts.VerifyToken (some (strBytes "a.b")) (some (strBytes "x")) none 0 =
      .crashed ∧
    Jwts.VerifyToken (some (strBytes "a.b.c.d")) (some (strBytes "x")) none 0 =
      .crashed ∧
    Jwts.ValidateToken (some (strBytes "a.b")) (some [1]) none = .crashed ∧
    Jwts.ValidateToken (some (strBytes "a.b.c.d")) (some [1]) none =
      .crashed := by
  decide

/-- Claim C9: `VerifyToken` is integrity-agnostic — on two well-formed
tokens that differ only in the third (signature) segment it returns the
same result at the same time and audience target; it takes no secret at
all. -/
theorem claim_C9 (hd cl s1 s2 : Bytes) (x : Option Bytes) (now : Int)
    (h1 : 46 ∉ hd) (h2 : 46 ∉ cl) (h3 : 46 ∉ s1) (h4 : 46 ∉ s2) :
    Jwts.VerifyToken (some (hd ++ 46 :: (cl ++ 46 :: s1))) x none now =
      Jwts.VerifyToken (some (hd ++ 46 :: (cl ++ 46 :: s2))) x none now := by
  simp only [Jwts.VerifyToken]
  rw [show Jwts.parseTokenChunks (some (hd ++ 46 :: (cl ++ 46 :: s1))) none =
    (some ⟨hd, cl, s1⟩, none) from by
      rw [Jwts.parseTokenChunks, splitOnDot_three h1 h2 h3]]
  rw [show Jwts.parseTokenChunks (some (hd ++ 46 :: (cl ++ 46 :: s2))) none =
    (some ⟨hd, cl, s2⟩, none) from by
      rw [Jwts.parseTokenChunks, splitOnDot_three h1 h2 h4]]
  rfl

/-- Claim C9 witness: two concrete three-segment tokens differing only in
the signature segment get the same verdict. -/
theorem claim_C9_witness :
    46 ∉ strBytes "sgA" ∧
    Jwts.VerifyToken (some (strBytes "hdr" ++ 46 ::
        (strBytes "cls" ++ 46 :: strBytes "sgA")))
      (some (strBytes "x")) none 7 =
    Jwts.VerifyToken (some (strBytes "hdr" ++ 46 ::
        (strBytes "cls" ++ 46 :: strBytes "sgB")))
      (some (strBytes "x")) none 7 :=
  ⟨by decide, claim_C9 (strBytes "hdr") (strBytes "cls") (strBytes "sgA")
    (strBytes "sgB") (some (strBytes "x")) 7
    (by decide) (by decide) (by decide) (by decide)⟩

/-- Claim C8: the first dot-separated segment of every created token is
the constant `DefaultHeaderBase64`, which is exactly the unpadded base64
of the JSON text with key order `alg`, `typ` and no other fields, equal
to the fixed string of the test suite; it never varies per call. -/
theorem claim_C8 :
    (∀ (p : CreateTokenParams) (s : Bytes) (now : Int),
      ((Jwts.CreateToken (some p) (some s) none now).1).map
        (fun t => (splitOnDot t).head?) = some (some DefaultHeaderBase64)) ∧
    DefaultHeaderBase64 =
      rawStdEncode (strBytes "\x7b\"alg\":\"HS256\",\"typ\":\"JWT\"\x7d") ∧
    DefaultHeaderBase64 = strBytes "eyJhbGciOiJIUzI1NiIsInR5cCI6IkpXVCJ9" := by
  refine ⟨?_, by decide, by decide⟩
  intro p s now
  rw [CreateToken_eq]
  simp only [Option.map_some']
  rw [splitOnDot_append no_dot_defaultHeaderBase64]
  rfl

/-- Claim C10: `CreateJWTFromSecret` ignores the value of the caller's
non-nil secret — with the same randomness and clock, two different
secrets give the identical payload; the payload's `Secret` field is the
freshly generated 128-byte random secret, its token is signed with that
generated secret, and `ValidateJWT` accepts the payload against it. -/
theorem claim_C10 (p : CreateTokenParams) (s1 s2 : Bytes)
    (rand : Nat → Nat) (now : Int) :
    Jwtx.CreateJWTFromSecret (some p) (some s1) none rand now =
      Jwtx.CreateJWTFromSecret (some p) (some s2) none rand now ∧
    Jwtx.CreateJWTFromSecret (some p) (some s1) none rand now =
      .ok (some ⟨some (DefaultHeaderBase64 ++ 46 ::
        (rawStdEncode (marshalClaims (mkClaims p now)) ++ 46 ::
          jwtxSigChunk p rand now)),
        some (jwtxGenSecret rand), some (jwtxSigChunk p rand now)⟩, none) ∧
    Jwtx.ValidateJWT (some ⟨some (DefaultHeaderBase64 ++ 46 ::
        (rawStdEncode (marshalClaims (mkClaims p now)) ++ 46 ::
          jwtxSigChunk p rand now)),
        some (jwtxGenSecret rand), some (jwtxSigChunk p rand now)⟩) none =
      .ok (true, none) := by
  refine ⟨rfl, CreateJWTFromSecret_eq p s1 rand now, ?_⟩
  rw [Jwtx.ValidateJWT]
  simp only
  have hchunks : Jwtx.retrieveTokenChunks
      (some (DefaultHeaderBase64 ++ 46 ::
        (rawStdEncode (marshalClaims (mkClaims p now)) ++ 46 ::
          jwtxSigChunk p rand now))) none =
      (some ⟨DefaultHeaderBase64, rawStdEncode (marshalClaims (mkClaims p now)),
        jwtxSigChunk p rand now⟩, none) := by
    rw [Jwtx.retrieveTokenChunks, Jwts.parseTokenChunks]
    rw [splitOnDot_three no_dot_defaultHeaderBase64
      (rawStdEncode_no_dot _) (jwtxSigChunk_no_dot p rand now)]
  rw [hchunks]
  simp only [goDeref]
  rw [show Jwtx.generateSignature (some DefaultHeaderBase64)
    (some (rawStdEncode (marshalClaims (mkClaims p now))))
    (some (jwtxGenSecret rand)) none =
    (some (jwtxSigChunk p rand now), none) from rfl]
  simp

/-- The signing operation as the specification words it: the unpadded
standard-alphabet base64 of the raw HMAC-SHA256 MAC bytes computed over
`encodedHeader + "." + encodedClaims` with the secret as key. -/
def signSpec (hd cl secret : Bytes) : Bytes :=
  rawStdEncode (hmacSha256 secret (hd ++ 46 :: cl))

/-- Claim C6 (corrected): `jwts.createSignature` produces exactly the
unpadded base64 of the raw MAC bytes, but `jwtx.generateSignature` does
not — it first `json.Marshal`s the MAC byte slice (producing a quoted,
padded base64 string) and base64-encodes that text, so its output never
equals the spec's signature (their lengths are 62 and 43). -/
theorem claim_C6 (hd cl s : Bytes) :
    Jwts.createSignature (some hd) (some cl) (some s) none =
      (some (signSpec hd cl s), none) ∧
    Jwtx.generateSignature (some hd) (some cl) (some s) none =
      (some (rawStdEncode (marshalByteSlice (hmacSha256 s (hd ++ 46 :: cl)))),
        none) ∧
    (Jwtx.generateSignature (some hd) (some cl) (some s) none).1 ≠
      some (signSpec hd cl s) := by
  refine ⟨rfl, rfl, ?_⟩
  intro hcontra
  have h1 : (rawStdEncode (marshalByteSlice (hmacSha256 s
      (hd ++ 46 :: cl)))).length = 62 := by
    rw [rawStdEncode_length]
    rw [show (marshalByteSlice (hmacSha256 s (hd ++ 46 :: cl))).length = 46
      from by
        rw [marshalByteSlice]
        simp [stdPadEncode_length, hmacSha256_length]]
  have h2 : (signSpec hd cl s).length = 43 := by
    rw [signSpec, rawStdEncode_length, hmacSha256_length]
  have hq : (Jwtx.generateSignature (some hd) (some cl) (some s) none).1 =
      some (rawStdEncode (marshalByteSlice (hmacSha256 s (hd ++ 46 :: cl)))) :=
    rfl
  rw [hq] at hcontra
  have := congrArg (fun o => (Option.map List.length o)) hcontra
  simp only [Option.map_some'] at this
  rw [h1, h2] at this
  simp at this

/-- Claim C6 counterexample: at a concrete header, claims and secret the
`jwtx` signing operation differs from the spec's raw-MAC base64. -/
theorem claim_C6_counterexample :
    (Jwtx.generateSignature (some [97]) (some [98]) (some [1]) none).1 ≠
      some (signSpec [97] [98] [1]) := by
  intro hcontra
  have hq : (Jwtx.generateSignature (some [97]) (some [98]) (some [1])
      none).1 =
      some (rawStdEncode (marshalByteSlice (hmacSha256 [1]
        ([97] ++ 46 :: [98])))) := rfl
  rw [hq] at hcontra
  have h1 : (rawStdEncode (marshalByteSlice (hmacSha256 [1]
      ([97] ++ 46 :: [98])))).length = 62 := by
    rw [rawStdEncode_length]
    rw [show (marshalByteSlice (hmacSha256 [1] ([97] ++ 46 :: [98]))).length
      = 46 from by
        rw [marshalByteSlice]
        simp [stdPadEncode_length, hmacSha256_length]]
  have h2 : (signSpec [97] [98] [1]).length = 43 := by
    rw [signSpec, rawStdEncode_length, hmacSha256_length]
  have := congrArg (fun o => (Option.map List.length o)) hcontra
  simp only [Option.map_some'] at this
  rw [h1, h2] at this
  simp at this

/-- Claim C7: when `delay` is absent the claims built by `createClaims`
carry `nbf` present with value 0 (not an omitted field); it survives the
marshal/unmarshal round-trip, and the not-before check passes at every
positive `int64` time. -/
theorem claim_C7 (p : CreateTokenParams) (now0 : Int)
    (hdelay : p.delay = none) (h0 : Int64Range now0) :
    (mkClaims p now0).nbf = some 0 ∧
    parseClaims (marshalClaims (mkClaims p now0)) = some (mkClaims p now0) ∧
    (∀ now : Int, 0 < now → now < 2 ^ 63 →
      Jwts.nbfRejects (mkClaims p now0).nbf now = false) := by
  have hnbf : (mkClaims p now0).nbf = some 0 := by
    rw [mkClaims]
    simp [hdelay]
  refine ⟨hnbf, ?_, ?_⟩
  · obtain ⟨he, hi, hn⟩ := mkClaims_intsOk p h0
    exact parseClaims_marshal _ he hi hn
  · intro now hpos hlt
    rw [hnbf, Jwts.nbfRejects]
    simp only [decide_eq_false_iff_not, not_le]
    rw [i64sub, wrap64_eq_of_range (by constructor <;> omega)]
    omega

/-- Claim C7 witness: a concrete no-delay parameter set at a concrete
clock and check time. -/
theorem claim_C7_witness :
    (⟨[strBytes "a"], strBytes "i", strBytes "s", 3600,
        none⟩ : CreateTokenParams).delay = none ∧
    (mkClaims ⟨[strBytes "a"], strBytes "i", strBytes "s", 3600, none⟩
      1000).nbf = some 0 ∧
    Jwts.nbfRejects (mkClaims ⟨[strBytes "a"], strBytes "i", strBytes "s",
      3600, none⟩ 1000).nbf 5 = false := by
  refine ⟨rfl, ?_, ?_⟩
  · exact (claim_C7 _ 1000 rfl (by decide)).1
  · exact (claim_C7 _ 1000 rfl (by decide)).2.2 5 (by decide) (by decide)

theorem audScan_eq_mem (aud : List Bytes) (t : Bytes) :
    Jwts.audScan aud t = decide (t ∈ aud) := by
  induction aud with
  | nil => simp [Jwts.audScan]
  | cons a rest ih =>
      rw [Jwts.audScan]
      by_cases h : a = t
      · simp [h]
      · simp only [if_neg h, ih]
        simp [List.mem_cons, h, Ne.symm h]

theorem jwtx_findAudChunk_eq_mem (aud : List Bytes) (t : Bytes) :
    Jwtx.findAudChunk aud t = decide (t ∈ aud) := by
  induction aud with
  | nil => simp [Jwtx.findAudChunk]
  | cons a rest ih =>
      rw [Jwtx.findAudChunk]
      by_cases h : a = t
      · simp [h]
      · simp only [if_neg h, ih]
        simp [List.mem_cons, h, Ne.symm h]

/-- Claim C3 (corrected at the boundary): for a token created with
`delay = 60` and positive lifetime, jwtx policy verification fails with
`UsedBeforeExpectedError` at every `now` with `iat ≤ now ≤ iat + 60`
(the not-before check rejects exactly when `nbf >= now`, so the boundary
`now = iat + 60` is still rejected), and succeeds exactly once
`iat + 60 < now < exp`. -/
theorem claim_C3 (p : CreateTokenParams) (s : Bytes) (now0 now : Int)
    (x : Bytes) (hp : ParamsOk p) (hdelay : p.delay = some 60)
    (hL : 0 < p.lifetime) (hLr : p.lifetime ≤ 2 ^ 62)
    (h00 : 0 ≤ now0) (h0r : now0 < 2 ^ 62)
    (hnr : now < 2 ^ 63) (hn0 : 0 ≤ now)
    (hx : x ∈ p.aud) :
    (now0 ≤ now → now ≤ now0 + 60 →
      Jwtx.ValidateTokenByWindowAndAud
        (Jwts.CreateToken (some p) (some s) none now0).1 x none now =
        .ok (false, some .tokenUsedBeforeExpected)) ∧
    (now0 + 60 < now → now < now0 + p.lifetime →
      Jwtx.ValidateTokenByWindowAndAud
        (Jwts.CreateToken (some p) (some s) none now0).1 x none now =
        .ok (true, none)) := by
  have h0range : Int64Range now0 := ⟨by omega, by omega⟩
  have hnbfval : i64add now0 60 = now0 + 60 := by
    rw [i64add]
    exact wrap64_eq_of_range ⟨by omega, by omega⟩
  have hexpval : i64add now0 p.lifetime = now0 + p.lifetime := by
    rw [i64add]
    exact wrap64_eq_of_range ⟨by omega, by omega⟩
  have hiatval : i64sub now0 now = now0 - now := by
    rw [i64sub]
    exact wrap64_eq_of_range ⟨by omega, by omega⟩
  constructor
  · intro hge hle
    rw [jwtxValidate_created p s now0 x now hp h0range]
    rw [jwtxVerdict]
    simp only [mkClaims, hdelay, jwtx_findAudChunk_eq_mem]
    rw [if_neg (by simp [hx])]
    rw [hiatval, if_neg (by omega)]
    rw [hnbfval, Jwts.nbfRejects]
    rw [show i64sub (now0 + 60) now = now0 + 60 - now from by
      rw [i64sub]; exact wrap64_eq_of_range ⟨by omega, by omega⟩]
    rw [if_pos (by simp; omega)]
  · intro hgt hlt
    rw [jwtxValidate_created p s now0 x now hp h0range]
    rw [jwtxVerdict]
    simp only [mkClaims, hdelay, jwtx_findAudChunk_eq_mem]
    rw [if_neg (by simp [hx])]
    rw [hiatval, if_neg (by omega)]
    rw [Jwts.nbfRejects]
    rw [show i64sub (i64add now0 60) now = now0 + 60 - now from by
      rw [hnbfval, i64sub]; exact wrap64_eq_of_range ⟨by omega, by omega⟩]
    rw [if_neg (by simp; omega)]
    rw [show i64sub (i64add now0 p.lifetime) now = now0 + p.lifetime - now
      from by
        rw [hexpval, i64sub]; exact wrap64_eq_of_range ⟨by omega, by omega⟩]
    rw [if_pos (by omega)]

/-- Claim C3 counterexample: a token created with `delay = 60` at
`iat = 1000` is rejected with `UsedBeforeExpectedError` at
`now = 1060 = iat + 60`, where the claim asserts success. -/
theorem claim_C3_counterexample :
    Jwtx.ValidateTokenByWindowAndAud
      (Jwts.CreateToken (some ⟨[strBytes "a"], strBytes "i", strBytes "s",
        3600, some 60⟩) (some [1]) none 1000).1
      (strBytes "a") none 1060 =
      .ok (false, some .tokenUsedBeforeExpected) := by
  rw [jwtxValidate_created _ _ _ _ _ (by decide) (by decide)]
  decide

/-- Claim C3 witness: the two halves at concrete times 1059 and 1061. -/
theorem claim_C3_witness :
    Jwtx.ValidateTokenByWindowAndAud
      (Jwts.CreateToken (some ⟨[strBytes "a"], strBytes "i", strBytes "s",
        3600, some 60⟩) (some [1]) none 1000).1
      (strBytes "a") none 1059 =
      .ok (false, some .tokenUsedBeforeExpected) ∧
    Jwtx.ValidateTokenByWindowAndAud
      (Jwts.CreateToken (some ⟨[strBytes "a"], strBytes "i", strBytes "s",
        3600, some 60⟩) (some [1]) none 1000).1
      (strBytes "a") none 1061 = .ok (true, none) :=
  ⟨(claim_C3 ⟨[strBytes "a"], strBytes "i", strBytes "s", 3600, some 60⟩
      [1] 1000 1059 (strBytes "a") (by decide) rfl (by decide) (by decide)
      (by decide) (by decide) (by decide) (by decide) (by decide)).1
    (by decide) (by decide),
   (claim_C3 ⟨[strBytes "a"], strBytes "i", strBytes "s", 3600, some 60⟩
      [1] 1000 1061 (strBytes "a") (by decide) rfl (by decide) (by decide)
      (by decide) (by decide) (by decide) (by decide) (by decide)).2
    (by decide) (by decide)⟩

/-- Claim C4 (corrected): acceptance by the policy check implies
`exp > now` only when the `int64` subtraction `exp - now` does not
underflow; under that proviso `validateTokenTimes` accepts only while
`exp > now`, and a token created with `lifetime = 0` (so `exp == iat`)
fails policy verification at and after creation — with `ExpiredError`
in the jwtx variant, and as a bare `false` in jwts `VerifyToken`. -/
theorem claim_C4 :
    (∀ (td : Jwts.TokenDetails) (now : Int),
      Int64Range td.claims.exp → Int64Range now →
      -(2 ^ 63) ≤ td.claims.exp - now →
      Jwts.validateTokenTimes (some td) none now = .ok (true, none) →
      now < td.claims.exp) ∧
    (∀ (p : CreateTokenParams) (s : Bytes) (now0 now : Int) (x : Bytes),
      ParamsOk p → p.lifetime = 0 → p.delay = none →
      0 < now0 → now0 ≤ now → now < 2 ^ 63 → x ∈ p.aud →
      Jwtx.ValidateTokenByWindowAndAud
        (Jwts.CreateToken (some p) (some s) none now0).1 x none now =
        .ok (false, some .tokenIsExpired)) ∧
    (∀ (p : CreateTokenParams) (s : Bytes) (now0 now : Int) (x : Bytes),
      ParamsOk p → p.lifetime = 0 → p.delay = none →
      0 < now0 → now0 ≤ now → now < 2 ^ 63 → x ∈ p.aud →
      Jwts.VerifyToken (Jwts.CreateToken (some p) (some s) none now0).1
        (some x) none now = .ok (false, none)) := by
  refine ⟨?_, ?_, ?_⟩
  · intro td now hexp hnow hnolow hacc
    rw [Jwts.validateTokenTimes.eq_def] at hacc
    simp only [goDeref] at hacc
    split_ifs at hacc with hA hB hC
    · simp at hacc
    · simp at hacc
    · obtain ⟨he1, he2⟩ := hexp
      obtain ⟨hn1, hn2⟩ := hnow
      rw [i64sub, wrap64] at hC
      omega
    · simp at hacc
  · intro p s now0 now x hp hL hdel h1 h2 h3 hx
    have h0range : Int64Range now0 := ⟨by omega, by omega⟩
    rw [jwtxValidate_created p s now0 x now hp h0range]
    rw [jwtxVerdict]
    simp only [mkClaims, hdel, jwtx_findAudChunk_eq_mem]
    rw [if_neg (by simp [hx])]
    rw [show i64sub now0 now = now0 - now from by
      rw [i64sub]; exact wrap64_eq_of_range ⟨by omega, by omega⟩]
    rw [if_neg (by omega)]
    rw [Jwts.nbfRejects]
    have hnbf : ¬(0 ≤ i64sub 0 now) := by
      rw [i64sub, show (0:Int) - now = -now by ring,
        wrap64_eq_of_range ⟨by omega, by omega⟩]
      omega
    rw [if_neg (by simpa using hnbf)]
    have hcond : ¬(0 < i64sub (i64add now0 p.lifetime) now) := by
      rw [hL, i64add, wrap64_eq_of_range (show Int64Range (now0 + 0) from
        ⟨by omega, by omega⟩), i64sub,
        wrap64_eq_of_range ⟨by omega, by omega⟩]
      omega
    rw [if_neg hcond]
  · intro p s now0 now x hp hL hdel h1 h2 h3 hx
    have h0range : Int64Range now0 := ⟨by omega, by omega⟩
    rw [VerifyToken_created p s now0 (some x) now hp h0range]
    rw [jwtsVerdict]
    rw [show (Jwts.findAudChunk (mkClaims p now0).aud (some x) none).1 =
      Jwts.audScan p.aud x from rfl, audScan_eq_mem]
    rw [if_neg (by simp [hx])]
    simp only [mkClaims, hdel]
    rw [show i64sub now0 now = now0 - now from by
      rw [i64sub]; exact wrap64_eq_of_range ⟨by omega, by omega⟩]
    rw [if_neg (by omega)]
    rw [Jwts.nbfRejects]
    have hnbf : ¬(0 ≤ i64sub 0 now) := by
      rw [i64sub, show (0:Int) - now = -now by ring,
        wrap64_eq_of_range ⟨by omega, by omega⟩]
      omega
    rw [if_neg (by simpa using hnbf)]
    have hcond : ¬(0 < i64sub (i64add now0 p.lifetime) now) := by
      rw [hL, i64add, wrap64_eq_of_range (show Int64Range (now0 + 0) from
        ⟨by omega, by omega⟩), i64sub,
        wrap64_eq_of_range ⟨by omega, by omega⟩]
      omega
    rw [if_neg hcond]

/-- Claim C4 counterexample: a token `CreateToken` itself produces (with
the unvalidated lifetime `-2^63` at clock 0) has `exp = -2^63 ≤ now`,
yet the `int64` subtraction `exp - now` wraps and `VerifyToken` accepts
it at `now = 1` — so acceptance does not imply `exp > now`. -/
theorem claim_C4_counterexample :
    (mkClaims ⟨[strBytes "svc"], strBytes "x", strBytes "y",
      -(2 ^ 63), none⟩ 0).exp = -(2 ^ 63) ∧
    Jwts.VerifyToken
      (Jwts.CreateToken (some ⟨[strBytes "svc"], strBytes "x", strBytes "y",
        -(2 ^ 63), none⟩) (some [1]) none 0).1
      (some (strBytes "svc")) none 1 = .ok (true, none) := by
  refine ⟨by decide, ?_⟩
  rw [VerifyToken_created _ _ _ _ _ (by decide) (by decide)]
  decide

/-- Claim C4 witness: the three parts at concrete inputs — a concrete
accepted record has `exp > now`, and a concrete `lifetime = 0` token is
rejected with `ExpiredError` by jwtx and `false` by jwts. -/
theorem claim_C4_witness :
    1 < (5 : Int) ∧
    Jwtx.ValidateTokenByWindowAndAud
      (Jwts.CreateToken (some ⟨[strBytes "a"], strBytes "i", strBytes "s",
        0, none⟩) (some [1]) none 1000).1
      (strBytes "a") none 1000 = .ok (false, some .tokenIsExpired) ∧
    Jwts.VerifyToken
      (Jwts.CreateToken (some ⟨[strBytes "a"], strBytes "i", strBytes "s",
        0, none⟩) (some [1]) none 1000).1
      (some (strBytes "a")) none 1000 = .ok (false, none) := by
  refine ⟨?_, ?_, ?_⟩
  · exact claim_C4.1 ⟨DefaultHeader, ⟨[strBytes "a"], 5, 0, [], some 0, []⟩⟩
      1 (by decide) (by decide) (by decide) (by decide)
  · exact claim_C4.2.1 ⟨[strBytes "a"], strBytes "i", strBytes "s", 0, none⟩
      [1] 1000 1000 (strBytes "a") (by decide) rfl rfl (by decide)
      (by decide) (by decide) (by decide)
  · exact claim_C4.2.2 ⟨[strBytes "a"], strBytes "i", strBytes "s", 0, none⟩
      [1] 1000 1000 (strBytes "a") (by decide) rfl rfl (by decide)
      (by decide) (by decide) (by decide)

/-- Claim C5 (corrected on the error): for a freshly created no-delay
token whose time window is currently valid, `jwts.VerifyToken` returns
`true` exactly when the target is an element of the `aud` list — but on
a mismatch it returns `false` with a nil error; only the jwtx variant
`ValidateTokenByWindowAndAud` reports `AudienceNotFoundError`. -/
theorem claim_C5 (p : CreateTokenParams) (s : Bytes) (now0 now : Int)
    (x : Bytes) (hp : ParamsOk p) (hdelay : p.delay = none)
    (h00 : 0 ≤ now0) (h0r : now0 < 2 ^ 62)
    (hiat : now0 ≤ now) (hnr : now < 2 ^ 62) (hpos : 0 < now)
    (hexp : now < now0 + p.lifetime) (hLr : p.lifetime ≤ 2 ^ 62) :
    Jwts.VerifyToken (Jwts.CreateToken (some p) (some s) none now0).1
      (some x) none now = .ok (decide (x ∈ p.aud), none) ∧
    (x ∉ p.aud →
      Jwtx.ValidateTokenByWindowAndAud
        (Jwts.CreateToken (some p) (some s) none now0).1 x none now =
        .ok (false, some .audChunkNotFound)) := by
  have h0range : Int64Range now0 := ⟨by omega, by omega⟩
  constructor
  · rw [VerifyToken_created p s now0 (some x) now hp h0range]
    rw [jwtsVerdict]
    rw [show (Jwts.findAudChunk (mkClaims p now0).aud (some x) none).1 =
      Jwts.audScan p.aud x from rfl, audScan_eq_mem]
    by_cases hmem : x ∈ p.aud
    · rw [if_neg (by simp [hmem])]
      simp only [mkClaims, hdelay]
      rw [show i64sub now0 now = now0 - now from by
        rw [i64sub]; exact wrap64_eq_of_range ⟨by omega, by omega⟩]
      rw [if_neg (by omega)]
      rw [Jwts.nbfRejects]
      have hnbf : ¬(0 ≤ i64sub 0 now) := by
        rw [i64sub, show (0:Int) - now = -now by ring,
          wrap64_eq_of_range ⟨by omega, by omega⟩]
        omega
      rw [if_neg (by simpa using hnbf)]
      have hcond : 0 < i64sub (i64add now0 p.lifetime) now := by
        rw [i64add, wrap64_eq_of_range (show Int64Range (now0 + p.lifetime)
          from ⟨by omega, by omega⟩), i64sub,
          wrap64_eq_of_range ⟨by omega, by omega⟩]
        omega
      rw [if_pos hcond]
      simp [hmem]
    · rw [if_pos (by simp [hmem])]
      simp [hmem]
  · intro hmem
    rw [jwtxValidate_created p s now0 x now hp h0range]
    rw [jwtxVerdict]
    simp only [mkClaims, jwtx_findAudChunk_eq_mem]
    rw [if_pos (by simp [hmem])]

/-- Claim C5 counterexample: a fresh, window-valid token checked against
an audience not in its `aud` list — `VerifyToken` returns `false` with a
nil error, not `AudienceNotFoundError`. -/
theorem claim_C5_counterexample :
    Jwts.VerifyToken
      (Jwts.CreateToken (some ⟨[strBytes "hello", strBytes "world"],
        strBytes "i", strBytes "s", 3600, none⟩) (some [1]) none 1000).1
      (some (strBytes "nope")) none 1001 = .ok (false, none) ∧
    Jwts.VerifyToken
      (Jwts.CreateToken (some ⟨[strBytes "hello", strBytes "world"],
        strBytes "i", strBytes "s", 3600, none⟩) (some [1]) none 1000).1
      (some (strBytes "nope")) none 1001 ≠
      .ok (false, some .audChunkNotFound) := by
  constructor
  · rw [VerifyToken_created _ _ _ _ _ (by decide) (by decide)]
    decide
  · rw [VerifyToken_created _ _ _ _ _ (by decide) (by decide)]
    decide

/-- Claim C5 witness: the concrete fresh token accepts an audience on
its list and rejects one off it, with the jwtx error on the mismatch. -/
theorem claim_C5_witness :
    Jwts.VerifyToken
      (Jwts.CreateToken (some ⟨[strBytes "hello", strBytes "world"],
        strBytes "i", strBytes "s", 3600, none⟩) (some [1]) none 1000).1
      (some (strBytes "hello")) none 1001 = .ok (true, none) ∧
    Jwtx.ValidateTokenByWindowAndAud
      (Jwts.CreateToken (some ⟨[strBytes "hello", strBytes "world"],
        strBytes "i", strBytes "s", 3600, none⟩) (some [1]) none 1000).1
      (strBytes "nope") none 1001 = .ok (false, some .audChunkNotFound) := by
  constructor
  · have h := (claim_C5 ⟨[strBytes "hello", strBytes "world"], strBytes "i",
      strBytes "s", 3600, none⟩ [1] 1000 1001 (strBytes "hello") (by decide)
      rfl (by decide) (by decide) (by decide) (by decide) (by decide)
      (by decide) (by decide)).1
    rw [h]
    decide
  · exact (claim_C5 ⟨[strBytes "hello", strBytes "world"], strBytes "i",
      strBytes "s", 3600, none⟩ [1] 1000 1001 (strBytes "nope") (by decide)
      rfl (by decide) (by decide) (by decide) (by decide) (by decide)
      (by decide) (by decide)).2 (by decide)

/-- Claim C6 witness: the refinement at a concrete header, claims and
secret — jwts matches the spec's signature, jwtx does not. -/
theorem claim_C6_witness :
    Jwts.createSignature (some [97]) (some [98]) (some [2]) none =
      (some (signSpec [97] [98] [2]), none) ∧
    (Jwtx.generateSignature (some [97]) (some [98]) (some [2]) none).1 ≠
      some (signSpec [97] [98] [2]) :=
  ⟨(claim_C6 [97] [98] [2]).1, (claim_C6 [97] [98] [2]).2.2⟩
